import Mathlib

/-!
Verification development for the Gorilla time-series codec
(`c_src/gorilla_nif.cpp`).  The codec is embedded shallowly:

* bit streams are `List Bool`, most significant bit first, matching the
  MSB-first `BitWriter`/`BitReader` pair of the source;
* byte buffers are `List Nat` (each entry a byte value; all reads mask
  to 8 bits exactly as the C code's `uint8_t` arithmetic does);
* 64-bit signed integers are `Int` together with explicit two's
  complement conversions (`toU64`, `sext`) at each width used by the
  code; unsigned overflow carries an explicit `% 2 ^ 64`;
* fallible decoding returns `Except`/`Option`.

Two runtime-dependent header fields — the stored compression ratio
(an IEEE-754 division result) and the creation time (`time(nullptr)`)
— are taken as parameters of the encoder; the decoder never reads
either field.  The Victoria-Metrics value preprocessing operates on
IEEE-754 doubles and is outside the bit-level model: the modelled
encoder returns `none` when that option is enabled, and the modelled
decoder returns the decoded samples together with the `flags` and
`scale_decimals` header fields that drive the (value-only)
postprocessing, which is the identity whenever flag bit 0 is clear.
-/

set_option linter.unusedVariables false

namespace GorillaNif

/-- Most-significant-bit-first list of the low `n` bits of `v`.  This is
the sequence of bits appended by `BitWriter.write(v, n)` (the writer
masks the value to `n` bits and emits it MSB first). -/
def toBits (n v : Nat) : List Bool :=
  (List.range n).map (fun i => v.testBit (n - 1 - i))

/-- Numeric value of an MSB-first bit list; `BitReader::read` computes
exactly this fold (`result = (result << 1) | bit`). -/
def bitsToNat (l : List Bool) : Nat :=
  l.foldl (fun a b => 2 * a + b.toNat) 0

@[simp] theorem length_toBits (n v : Nat) : (toBits n v).length = n := by
  simp [toBits]

theorem toBits_snoc (n v : Nat) :
    toBits (n + 1) v = toBits n (v >>> 1) ++ [v.testBit 0] := by
  simp only [toBits, List.range_succ, List.map_append, List.map_cons, List.map_nil]
  congr 1
  · apply List.map_congr_left
    intro i hi
    simp only [List.mem_range] at hi
    rw [Nat.testBit_shiftRight]
    congr 1
    omega
  · congr 1
    congr 1
    omega

theorem toBits_mod (n v : Nat) : toBits n (v % 2 ^ n) = toBits n v := by
  apply List.map_congr_left
  intro i hi
  simp only [List.mem_range] at hi
  rw [Nat.testBit_mod_two_pow]
  have h : n - 1 - i < n := by omega
  simp [h]

theorem toBits_split (a b v : Nat) :
    toBits (a + b) v = toBits a (v >>> b) ++ toBits b v := by
  induction b generalizing v with
  | zero => simp [toBits]
  | succ b ih =>
    have h1 : a + (b + 1) = (a + b) + 1 := by omega
    have h2 : v >>> 1 >>> b = v >>> (b + 1) := by
      rw [← Nat.shiftRight_add]
      congr 1
      omega
    rw [h1, toBits_snoc, ih (v >>> 1), h2, toBits_snoc b v, List.append_assoc]

theorem toBits_cons (n v : Nat) :
    toBits (n + 1) v = v.testBit n :: toBits n v := by
  have h1 := toBits_split 1 n v
  rw [Nat.add_comm 1 n] at h1
  rw [h1]
  have h2 : toBits 1 (v >>> n) = [(v >>> n).testBit 0] := by
    simp [toBits]
  rw [h2, Nat.testBit_shiftRight]
  simp

theorem bitsToNat_aux (l : List Bool) (init : Nat) :
    l.foldl (fun a b => 2 * a + b.toNat) init
      = init * 2 ^ l.length + bitsToNat l := by
  induction l generalizing init with
  | nil => simp [bitsToNat]
  | cons x r ih =>
    simp only [List.foldl_cons, bitsToNat, List.length_cons]
    rw [ih, ih (2 * 0 + x.toNat)]
    ring

theorem bitsToNat_append (a b : List Bool) :
    bitsToNat (a ++ b) = bitsToNat a * 2 ^ b.length + bitsToNat b := by
  simp only [bitsToNat, List.foldl_append]
  rw [bitsToNat_aux b (List.foldl (fun a b => 2 * a + b.toNat) 0 a)]
  rfl

theorem bitsToNat_lt (l : List Bool) : bitsToNat l < 2 ^ l.length := by
  induction l with
  | nil => simp [bitsToNat]
  | cons x r ih =>
    have h := bitsToNat_aux r x.toNat
    simp only [bitsToNat, List.foldl_cons, List.length_cons]
    simp only [bitsToNat] at h ih
    rw [show (2 * 0 + x.toNat) = x.toNat by omega, h]
    have hx : x.toNat ≤ 1 := Bool.toNat_le x
    have : 2 ^ (r.length + 1) = 2 ^ r.length + 2 ^ r.length := by ring
    nlinarith

theorem mod_two_pow_succ (n v : Nat) :
    v % 2 ^ (n + 1) = 2 * (v / 2 % 2 ^ n) + v % 2 := by
  have e1 : 2 * (v / 2) + v % 2 = v := Nat.div_add_mod v 2
  have e2 : 2 ^ n * (v / 2 / 2 ^ n) + v / 2 % 2 ^ n = v / 2 :=
    Nat.div_add_mod (v / 2) (2 ^ n)
  have e3 : v = 2 ^ (n + 1) * (v / 2 / 2 ^ n) + (2 * (v / 2 % 2 ^ n) + v % 2) := by
    rw [pow_succ]
    nlinarith [e1, e2]
  have hlt : 2 * (v / 2 % 2 ^ n) + v % 2 < 2 ^ (n + 1) := by
    have h1 : v / 2 % 2 ^ n < 2 ^ n := Nat.mod_lt _ (Nat.pos_pow_of_pos n (by omega))
    have h2 : v % 2 < 2 := Nat.mod_lt _ (by omega)
    rw [pow_succ]
    omega
  calc v % 2 ^ (n + 1)
      = (2 ^ (n + 1) * (v / 2 / 2 ^ n) + (2 * (v / 2 % 2 ^ n) + v % 2)) % 2 ^ (n + 1) := by
        rw [← e3]
    _ = (2 * (v / 2 % 2 ^ n) + v % 2) % 2 ^ (n + 1) := by
        rw [Nat.mul_add_mod]
    _ = 2 * (v / 2 % 2 ^ n) + v % 2 := Nat.mod_eq_of_lt hlt

theorem bitsToNat_toBits (n v : Nat) : bitsToNat (toBits n v) = v % 2 ^ n := by
  induction n generalizing v with
  | zero => simp [toBits, bitsToNat, Nat.mod_one]
  | succ n ih =>
    rw [toBits_snoc, bitsToNat_append, ih]
    have hb : (v.testBit 0).toNat = v % 2 := by
      rcases Nat.mod_two_eq_zero_or_one v with h | h <;>
        simp [Nat.testBit_zero, h]
    simp only [bitsToNat, List.length_cons, List.length_nil, List.foldl, pow_one]
    rw [mod_two_pow_succ, Nat.shiftRight_one]
    omega

theorem toBits_bitsToNat (l : List Bool) : toBits l.length (bitsToNat l) = l := by
  induction l with
  | nil => simp [toBits]
  | cons x r ih =>
    have hx : bitsToNat (x :: r) = x.toNat * 2 ^ r.length + bitsToNat r := by
      have := bitsToNat_append [x] r
      simpa [bitsToNat] using this
    have hr : bitsToNat r < 2 ^ r.length := bitsToNat_lt r
    have hpos : 0 < 2 ^ r.length := Nat.pos_pow_of_pos _ (by omega)
    have hdiv : (x.toNat * 2 ^ r.length + bitsToNat r) / 2 ^ r.length = x.toNat := by
      rw [mul_comm, Nat.mul_add_div hpos, Nat.div_eq_of_lt hr]
      omega
    have hhead : (x.toNat * 2 ^ r.length + bitsToNat r).testBit r.length = x := by
      have h1 : ((x.toNat * 2 ^ r.length + bitsToNat r) >>> r.length).testBit 0
          = (x.toNat * 2 ^ r.length + bitsToNat r).testBit r.length := by
        rw [Nat.testBit_shiftRight]
        norm_num
      rw [← h1, Nat.shiftRight_eq_div_pow, hdiv]
      cases x <;> rfl
    have htail : toBits r.length (x.toNat * 2 ^ r.length + bitsToNat r) = r := by
      have hm : (x.toNat * 2 ^ r.length + bitsToNat r) % 2 ^ r.length = bitsToNat r := by
        rw [mul_comm, Nat.mul_add_mod, Nat.mod_eq_of_lt hr]
      rw [← toBits_mod, hm]
      exact ih
    rw [List.length_cons, toBits_cons, hx, hhead, htail]

/-- Bits of a byte buffer, MSB first within each byte: the bit sequence
a `BitReader` traverses over a buffer (`bit_idx = 7 - pos % 8`). -/
def bytesToBits : List Nat → List Bool
  | [] => []
  | b :: r => toBits 8 b ++ bytesToBits r

/-- Repack a bit sequence into bytes, 8 bits per byte, MSB first — the
byte stream a `BitWriter` commits (structural recursion, eight bits at
a time; only byte-aligned sequences occur in the codec). -/
def bitsToBytes : List Bool → List Nat
  | b0 :: b1 :: b2 :: b3 :: b4 :: b5 :: b6 :: b7 :: rest =>
      bitsToNat [b0, b1, b2, b3, b4, b5, b6, b7] :: bitsToBytes rest
  | [] => []
  | l => [bitsToNat l]

@[simp] theorem bitsToBytes_nil : bitsToBytes [] = [] := rfl

theorem bitsToBytes_cons8 (l : List Bool) (h : 8 ≤ l.length) :
    bitsToBytes l = bitsToNat (l.take 8) :: bitsToBytes (l.drop 8) := by
  rcases l with _ | ⟨b0, _ | ⟨b1, _ | ⟨b2, _ | ⟨b3, _ | ⟨b4, _ | ⟨b5, _ | ⟨b6, _ | ⟨b7, rest⟩⟩⟩⟩⟩⟩⟩⟩ <;>
    first
      | rfl
      | (simp only [List.length_cons, List.length_nil] at h; omega)

theorem bytesToBits_append (a b : List Nat) :
    bytesToBits (a ++ b) = bytesToBits a ++ bytesToBits b := by
  induction a with
  | nil => simp [bytesToBits]
  | cons x r ih => simp [bytesToBits, ih]

@[simp] theorem length_bytesToBits (l : List Nat) :
    (bytesToBits l).length = 8 * l.length := by
  induction l with
  | nil => simp [bytesToBits]
  | cons x r ih => simp [bytesToBits, ih]; ring

theorem bitsToBytes_append (a b : List Bool) (h : 8 ∣ a.length) :
    bitsToBytes (a ++ b) = bitsToBytes a ++ bitsToBytes b := by
  obtain ⟨k, hk⟩ := h
  induction k generalizing a with
  | zero =>
    have ha : a = [] := List.length_eq_zero.mp (by omega)
    subst ha
    simp
  | succ k ih =>
    have h8 : 8 ≤ a.length := by omega
    rw [bitsToBytes_cons8 (a ++ b) (by simp; omega), bitsToBytes_cons8 a h8]
    have htake : (a ++ b).take 8 = a.take 8 := by
      rw [List.take_append_eq_append_take, show 8 - a.length = 0 by omega]
      simp
    have hdrop : (a ++ b).drop 8 = a.drop 8 ++ b := by
      rw [List.drop_append_eq_append_drop, show 8 - a.length = 0 by omega]
      simp
    rw [htake, hdrop, ih (a.drop 8) (by simp; omega)]
    simp

theorem bytesToBits_bitsToBytes (l : List Bool) (h : 8 ∣ l.length) :
    bytesToBits (bitsToBytes l) = l := by
  obtain ⟨k, hk⟩ := h
  induction k generalizing l with
  | zero =>
    have hl : l = [] := List.length_eq_zero.mp (by omega)
    subst hl
    rfl
  | succ k ih =>
    have h8 : 8 ≤ l.length := by omega
    rw [bitsToBytes_cons8 l h8]
    show toBits 8 (bitsToNat (l.take 8)) ++ bytesToBits (bitsToBytes (l.drop 8)) = l
    have h9 : (l.take 8).length = 8 := by
      simp only [List.length_take]
      omega
    have ht : toBits 8 (bitsToNat (l.take 8)) = l.take 8 := by
      have h10 := toBits_bitsToNat (l.take 8)
      rwa [h9] at h10
    rw [ht, ih (l.drop 8) (by simp; omega)]
    exact List.take_append_drop 8 l

theorem length_bitsToBytes (l : List Bool) (h : 8 ∣ l.length) :
    8 * (bitsToBytes l).length = l.length := by
  obtain ⟨k, hk⟩ := h
  induction k generalizing l with
  | zero =>
    have hl : l = [] := List.length_eq_zero.mp (by omega)
    subst hl
    simp
  | succ k ih =>
    have h8 : 8 ≤ l.length := by omega
    rw [bitsToBytes_cons8 l h8]
    have := ih (l.drop 8) (by simp; omega)
    simp only [List.length_cons, List.length_drop] at this ⊢
    omega

/-- Reading `n` bits MSB first from the front of a stream; `none` is the
`BitReader: read past end` exception of `BitReader::read_bit`. -/
def readBitsN (n : Nat) (l : List Bool) : Option (Nat × List Bool) :=
  if n ≤ l.length then some (bitsToNat (l.take n), l.drop n) else none

/-- Two's-complement reinterpretation of an `n`-bit raw value, as done by
`BitReader::read_signed` (sign-extension for `n < 64`, plain
`int64_t` cast for `n = 64`). -/
def sext (n raw : Nat) : Int :=
  if raw < 2 ^ (n - 1) then (raw : Int) else (raw : Int) - 2 ^ n

/-- `BitReader::read_signed`: read `n` raw bits, then sign-extend. -/
def readSigned (n : Nat) (l : List Bool) : Option (Int × List Bool) :=
  (readBitsN n l).map (fun p => (sext n p.1, p.2))

/-- Low 64 bits of the two's-complement representation of an `int64_t`
(the effect of `static_cast<uint64_t>`). -/
def toU64 (i : Int) : Nat := (i % (2 ^ 64 : Int)).toNat

theorem readBitsN_append (n v : Nat) (r : List Bool) :
    readBitsN n (toBits n v ++ r) = some (v % 2 ^ n, r) := by
  unfold readBitsN
  rw [if_pos (by simp)]
  rw [List.take_left' (length_toBits n v), List.drop_left' (length_toBits n v),
    bitsToNat_toBits]

theorem readSigned_append (n v : Nat) (r : List Bool) :
    readSigned n (toBits n v ++ r) = some (sext n (v % 2 ^ n), r) := by
  rw [readSigned, readBitsN_append]
  rfl

/-- One step of the ISO 3309 CRC-32 table construction
(`c = (c & 1) ? (0xEDB88320 ^ (c >> 1)) : (c >> 1)`). -/
def crc32Step (c : Nat) : Nat :=
  if c % 2 = 1 then 0xEDB88320 ^^^ (c >>> 1) else c >>> 1

/-- Entry `i` of the CRC-32 lookup table: eight `crc32Step` rounds. -/
def crc32TableEntry (i : Nat) : Nat :=
  crc32Step (crc32Step (crc32Step (crc32Step
    (crc32Step (crc32Step (crc32Step (crc32Step i)))))))

/-- One byte of the table-driven CRC-32 loop. -/
def crc32Update (c b : Nat) : Nat :=
  crc32TableEntry ((c ^^^ b) % 256) ^^^ (c >>> 8)

/-- `crc32` over a byte buffer (initial value and final xor all-ones),
matching `:erlang.crc32/1`. -/
def crc32 (data : List Nat) : Nat :=
  (data.foldl crc32Update 0xFFFFFFFF) ^^^ 0xFFFFFFFF

theorem toBits_mod_of_le (m n v : Nat) (h : m ≤ n) :
    toBits m (v % 2 ^ n) = toBits m v := by
  apply List.map_congr_left
  intro i hi
  simp only [List.mem_range] at hi
  rw [Nat.testBit_mod_two_pow]
  have hx : m - 1 - i < n := by omega
  simp [hx]

theorem shiftRight_lor (a b k : Nat) :
    (a ||| b) >>> k = (a >>> k) ||| (b >>> k) := by
  apply Nat.eq_of_testBit_eq
  intro i
  simp [Nat.testBit_shiftRight, Nat.testBit_lor]

theorem toBits_shiftLeft_or (m n b r : Nat) (hr : r < 2 ^ n) :
    toBits (m + n) ((b <<< n) ||| r) = toBits m b ++ toBits n r := by
  induction n generalizing r with
  | zero =>
    have hr0 : r = 0 := by omega
    subst hr0
    simp [toBits]
  | succ n ih =>
    have e1 : (b <<< (n + 1)) >>> 1 = b <<< n := by
      rw [Nat.shiftLeft_eq, Nat.shiftLeft_eq, Nat.shiftRight_eq_div_pow,
        pow_succ, pow_one, ← mul_assoc]
      exact Nat.mul_div_cancel _ (by omega)
    have e2 : ((b <<< (n + 1)) ||| r) >>> 1 = (b <<< n) ||| (r >>> 1) := by
      rw [shiftRight_lor, e1]
    have e3 : ((b <<< (n + 1)) ||| r).testBit 0 = r.testBit 0 := by
      rw [Nat.testBit_lor, Nat.testBit_shiftLeft]
      simp
    have hr1 : r >>> 1 < 2 ^ n := by
      rw [Nat.shiftRight_one]
      rw [pow_succ] at hr
      omega
    have hmn : m + (n + 1) = (m + n) + 1 := by omega
    rw [hmn, toBits_snoc, e2, e3, ih (r >>> 1) hr1, toBits_snoc n r,
      List.append_assoc]

/-- The `BitWriter` state of the source: committed bytes `out_`, the
pending `uint64_t` accumulator `buf_` (kept modulo `2 ^ 64`) and the
pending bit count `bits_`. -/
structure BitWriter where
  out : List Nat
  buf : Nat
  bits : Nat

/-- `BitWriter::flush`: while at least 8 bits are pending, commit the
top pending byte (`out_.push_back((buf_ >> bits_) & 0xFF)` after
`bits_ -= 8`). -/
def BitWriter.flush (w : BitWriter) : BitWriter :=
  if h : 8 ≤ w.bits then
    BitWriter.flush ⟨w.out ++ [(w.buf >>> (w.bits - 8)) % 256], w.buf, w.bits - 8⟩
  else w
termination_by w.bits
decreasing_by simp; omega

/-- `BitWriter::write`: append the low `n` bits of `v` MSB first.
Writes wider than 32 bits are split into a high and a 32-bit low part
(avoiding undefined 64-bit shifts); otherwise the value is masked to
`n` bits, shifted into the `uint64_t` accumulator and complete bytes
are flushed. -/
def BitWriter.write (w : BitWriter) (v n : Nat) : BitWriter :=
  if n = 0 then w
  else if 32 < n then
    (w.write (v >>> 32) (n - 32)).write (v % 2 ^ 32) 32
  else
    BitWriter.flush ⟨w.out, ((w.buf <<< n) ||| (v % 2 ^ n)) % 2 ^ 64, w.bits + n⟩
termination_by n
decreasing_by all_goals omega

/-- `BitWriter::write_signed`: two's complement of `v` masked to `n`
bits (mask is all-ones when `n ≥ 64`). -/
def BitWriter.write_signed (w : BitWriter) (v : Int) (n : Nat) : BitWriter :=
  if 64 ≤ n then w.write (toU64 v) n else w.write (toU64 v % 2 ^ n) n

/-- `BitWriter::total_bits`: committed bytes times 8 plus pending
bits. -/
def BitWriter.totalBits (w : BitWriter) : Nat := w.out.length * 8 + w.bits

/-- `BitWriter::to_bytes`: committed bytes plus a final partial byte
holding the pending bits left-aligned. -/
def BitWriter.to_bytes (w : BitWriter) : List Nat :=
  if 0 < w.bits then w.out ++ [(w.buf <<< (8 - w.bits)) % 256] else w.out

/-- Abstraction of a writer state to the bit sequence it holds. -/
def BitWriter.bitsOf (w : BitWriter) : List Bool :=
  bytesToBits w.out ++ toBits w.bits w.buf

theorem BitWriter.flush_bits_lt (w : BitWriter) : w.flush.bits < 8 := by
  rw [BitWriter.flush]
  split
  · exact BitWriter.flush_bits_lt _
  · omega
termination_by w.bits
decreasing_by simp; omega

theorem BitWriter.flush_totalBits (w : BitWriter) :
    w.flush.totalBits = w.totalBits := by
  rw [BitWriter.flush]
  split
  · rw [BitWriter.flush_totalBits]
    simp [BitWriter.totalBits]
    omega
  · rfl
termination_by w.bits
decreasing_by simp; omega

theorem BitWriter.flush_bitsOf (w : BitWriter) : w.flush.bitsOf = w.bitsOf := by
  rw [BitWriter.flush]
  split
  · rw [BitWriter.flush_bitsOf]
    simp only [BitWriter.bitsOf, bytesToBits_append]
    rename_i h
    have h1 : toBits 8 ((w.buf >>> (w.bits - 8)) % 256) = toBits 8 (w.buf >>> (w.bits - 8)) := by
      have := toBits_mod 8 (w.buf >>> (w.bits - 8))
      simpa using this
    have h2 : toBits w.bits w.buf
        = toBits 8 (w.buf >>> (w.bits - 8)) ++ toBits (w.bits - 8) w.buf := by
      have := toBits_split 8 (w.bits - 8) w.buf
      rw [show 8 + (w.bits - 8) = w.bits by omega] at this
      exact this
    simp [bytesToBits, h1, h2]
  · rfl
termination_by w.bits
decreasing_by simp; omega

theorem BitWriter.write_props (w : BitWriter) (v n : Nat) (h : w.bits < 8) :
    (w.write v n).bitsOf = w.bitsOf ++ toBits n v ∧ (w.write v n).bits < 8 ∧
      (w.write v n).totalBits = w.totalBits + n := by
  rw [BitWriter.write]
  split
  · rename_i h0
    subst h0
    exact ⟨by simp [toBits], h, by omega⟩
  · split
    · rename_i h0 h32
      have ih1 := BitWriter.write_props w (v >>> 32) (n - 32) h
      have ih2 := BitWriter.write_props (w.write (v >>> 32) (n - 32)) (v % 2 ^ 32) 32 ih1.2.1
      refine ⟨?_, ih2.2.1, ?_⟩
      · rw [ih2.1, ih1.1, List.append_assoc]
        congr 1
        have h1 : toBits 32 (v % 2 ^ 32) = toBits 32 v := toBits_mod 32 v
        rw [h1]
        have := toBits_split (n - 32) 32 v
        rw [show n - 32 + 32 = n by omega] at this
        rw [this]
      · rw [ih2.2.2, ih1.2.2]
        omega
    · rename_i h0 h32
      refine ⟨?_, BitWriter.flush_bits_lt _, ?_⟩
      · rw [BitWriter.flush_bitsOf]
        simp only [BitWriter.bitsOf]
        have hle : w.bits + n ≤ 64 := by omega
        have h1 : toBits (w.bits + n) ((((w.buf <<< n) ||| (v % 2 ^ n))) % 2 ^ 64)
            = toBits (w.bits + n) ((w.buf <<< n) ||| (v % 2 ^ n)) :=
          toBits_mod_of_le _ 64 _ hle
        have h2 : toBits (w.bits + n) ((w.buf <<< n) ||| (v % 2 ^ n))
            = toBits w.bits w.buf ++ toBits n (v % 2 ^ n) :=
          toBits_shiftLeft_or w.bits n w.buf (v % 2 ^ n) (Nat.mod_lt _ (by positivity))
        rw [h1, h2, toBits_mod, ← List.append_assoc]
      · rw [BitWriter.flush_totalBits]
        simp [BitWriter.totalBits]
        omega
termination_by n
decreasing_by all_goals omega

/-- `encode_first_delta`: variable-length code for the delta between
the first two timestamps.  Each `w.write`/`w.write_signed` of the
source appends the corresponding `toBits` run (see
`BitWriter.write_props`); `write_signed(d, n)` appends the low `n`
bits of the two's complement of `d`. -/
def encode_first_delta (delta : Int) : List Bool :=
  if delta = 0 then
    [false]
  else if -63 ≤ delta ∧ delta ≤ 64 then
    [true, false] ++ toBits 7 (toU64 delta)
  else if -255 ≤ delta ∧ delta ≤ 256 then
    [true, true, false] ++ toBits 9 (toU64 delta)
  else if -2047 ≤ delta ∧ delta ≤ 2048 then
    [true, true, true, false] ++ toBits 12 (toU64 delta)
  else
    [true, true, true, true] ++ toBits 32 (toU64 delta)

/-- `encode_delta_of_delta`: identical bucket table applied to a
delta-of-delta. -/
def encode_delta_of_delta (dod : Int) : List Bool :=
  if dod = 0 then
    [false]
  else if -63 ≤ dod ∧ dod ≤ 64 then
    [true, false] ++ toBits 7 (toU64 dod)
  else if -255 ≤ dod ∧ dod ≤ 256 then
    [true, true, false] ++ toBits 9 (toU64 dod)
  else if -2047 ≤ dod ∧ dod ≤ 2048 then
    [true, true, true, false] ++ toBits 12 (toU64 dod)
  else
    [true, true, true, true] ++ toBits 32 (toU64 dod)

/-- Result record of `encode_timestamps`. -/
structure TimestampEncodeResult where
  bits : List Bool
  first_timestamp : Int
  first_delta : Int
  count : Nat

/-- The `i = 2 .. n-1` loop of `encode_timestamps`: encode each
delta-of-delta, tracking the previous delta. -/
def encode_timestamps_loop (prev_delta : Int) (prev : Int) :
    List Int → List Bool
  | [] => []
  | t :: rest =>
    encode_delta_of_delta ((t - prev) - prev_delta) ++
      encode_timestamps_loop (t - prev) t rest

/-- `encode_timestamps`: first timestamp verbatim as 64 bits, then the
first delta, then delta-of-deltas. -/
def encode_timestamps (timestamps : List Int) : TimestampEncodeResult :=
  match timestamps with
  | [] => ⟨[], 0, 0, 0⟩
  | [t0] => ⟨toBits 64 (toU64 t0), t0, 0, 1⟩
  | t0 :: t1 :: rest =>
    ⟨toBits 64 (toU64 t0) ++ encode_first_delta (t1 - t0) ++
        encode_timestamps_loop (t1 - t0) t1 rest,
      t0, t1 - t0, rest.length + 2⟩

/-- `count_leading_zeros_64` of the source (`__builtin_clzll` guarded
by `v == 0 → 64`), for 64-bit values. -/
def count_leading_zeros_64 (v : Nat) : Nat :=
  if v = 0 then 64 else 63 - Nat.log2 v

/-- Fuelled trailing-zero count. -/
def count_trailing_zeros_64_aux : Nat → Nat → Nat
  | 0, _ => 0
  | fuel + 1, v => if v % 2 = 1 then 0 else count_trailing_zeros_64_aux fuel (v / 2) + 1

/-- `count_trailing_zeros_64` of the source (`__builtin_ctzll` guarded
by `v == 0 → 64`). -/
def count_trailing_zeros_64 (v : Nat) : Nat :=
  if v = 0 then 64 else count_trailing_zeros_64_aux 64 v

/-- Result record of `encode_values`. -/
structure ValueEncodeResult where
  bits : List Bool
  first_value_bits : Nat
  count : Nat

/-- The XOR loop of `encode_values`, carrying the previous value's bit
pattern and the remembered window `(prev_leading, prev_trailing)`.
The reuse test mirrors the source exactly: `leading >= prev_leading &&
trailing >= prev_trailing && (64 - prev_leading - prev_trailing) > 0`
(the last conjunct in C `int` arithmetic is false whenever
`prev_leading + prev_trailing ≥ 64`, which truncated `Nat`
subtraction reproduces).  The `& bitmask(n)` of the source is the
`% 2 ^ n` here. -/
def encode_values_loop (prev_bits : Nat) (prev_leading prev_trailing : Nat) :
    List Nat → List Bool
  | [] => []
  | curr :: rest =>
    let xor_val := curr ^^^ prev_bits
    if xor_val = 0 then
      false :: encode_values_loop curr prev_leading prev_trailing rest
    else
      let leading := count_leading_zeros_64 xor_val
      let trailing := count_trailing_zeros_64 xor_val
      let meaningful := 64 - leading - trailing
      if prev_leading ≤ leading ∧ prev_trailing ≤ trailing ∧
          0 < 64 - prev_leading - prev_trailing then
        let prev_meaningful := 64 - prev_leading - prev_trailing
        [true, false] ++
          toBits prev_meaningful ((xor_val >>> prev_trailing) % 2 ^ prev_meaningful) ++
          encode_values_loop curr prev_leading prev_trailing rest
      else
        let adj_leading := min leading 31
        let adj_meaningful := max 1 (min 64 meaningful)
        [true, true] ++ toBits 5 adj_leading ++ toBits 6 (adj_meaningful - 1) ++
          toBits adj_meaningful ((xor_val >>> trailing) % 2 ^ adj_meaningful) ++
          encode_values_loop curr adj_leading trailing rest

/-- `encode_values`: first value bit pattern verbatim as 64 bits, then
the XOR codes with initial window `(0, 0)`. -/
def encode_values (values : List Nat) : ValueEncodeResult :=
  match values with
  | [] => ⟨[], 0, 0⟩
  | v0 :: rest =>
    ⟨toBits 64 v0 ++ encode_values_loop v0 0 0 rest, v0, rest.length + 1⟩

/-- The 64-bit magic constant `"GORILLA"`. -/
def GORILLA_MAGIC : Nat := 0x474F52494C4C41

/-- The 256-bit sequence of `build_inner_header` (count 32, first
timestamp 64, first value bits 64, first delta 32 signed, timestamp
bit length 32, value bit length 32 — all big-endian, in write
order). -/
def inner_bits (count : Nat) (first_timestamp : Int)
    (first_value_bits : Nat) (first_delta : Int)
    (ts_bit_len val_bit_len : Nat) : List Bool :=
  toBits 32 count ++ toBits 64 (toU64 first_timestamp) ++
    toBits 64 first_value_bits ++ toBits 32 (toU64 first_delta) ++
    toBits 32 ts_bit_len ++ toBits 32 val_bit_len

/-- `build_inner_header`: the 32-byte per-series record. -/
def build_inner_header (count : Nat) (first_timestamp : Int)
    (first_value_bits : Nat) (first_delta : Int)
    (ts_bit_len val_bit_len : Nat) : List Nat :=
  bitsToBytes (inner_bits count first_timestamp first_value_bits first_delta
    ts_bit_len val_bit_len)

/-- The bit sequence of `build_outer_header`, in write order.
`ratio_bits` stands for the IEEE-754 bit pattern of the stored
compression ratio (a runtime floating-point value the decoder never
reads); `original_size = count * 16` as in the source (`uint32_t`,
masked by the 32-bit field). -/
def outer_bits (count compressed_size checksum : Nat)
    (first_timestamp : Int) (first_delta : Int) (first_value_bits : Nat)
    (ts_bit_len val_bit_len total_bits ratio_bits : Nat)
    (creation_time : Int) (flags scale_decimals : Nat) (v2 : Bool) :
    List Bool :=
  toBits 64 GORILLA_MAGIC ++ toBits 16 1 ++
    toBits 16 (if v2 then 84 else 80) ++ toBits 32 count ++
    toBits 32 compressed_size ++ toBits 32 (count * 16) ++
    toBits 32 checksum ++ toBits 64 (toU64 first_timestamp) ++
    toBits 32 (toU64 first_delta) ++ toBits 64 first_value_bits ++
    toBits 32 ts_bit_len ++ toBits 32 val_bit_len ++ toBits 32 total_bits ++
    toBits 64 ratio_bits ++ toBits 64 (toU64 creation_time) ++
    toBits 32 flags ++ (if v2 then toBits 32 scale_decimals else [])

/-- `build_outer_header`: the 80-byte (V1) or 84-byte (V2) outer
record. -/
def build_outer_header (count compressed_size checksum : Nat)
    (first_timestamp : Int) (first_delta : Int) (first_value_bits : Nat)
    (ts_bit_len val_bit_len total_bits ratio_bits : Nat)
    (creation_time : Int) (flags scale_decimals : Nat) (v2 : Bool) :
    List Nat :=
  bitsToBytes (outer_bits count compressed_size checksum first_timestamp
    first_delta first_value_bits ts_bit_len val_bit_len total_bits
    ratio_bits creation_time flags scale_decimals v2)

/-- Line 688 of the source: `bool v2 = vm_enabled || (is_counter &&
scale_decimals >= 0)`.  `scale_decimals` is the local `uint32_t`
(zero unless VM preprocessing ran), so the `>= 0` comparison is on an
unsigned value. -/
def encode_v2 (vm_enabled is_counter : Bool) (scale_decimals : Nat) : Bool :=
  vm_enabled || (is_counter && decide (0 ≤ scale_decimals))

/-- The encoder pipeline of `nif_gorilla_encode` from the point where
the (possibly preprocessed) timestamp and value columns are fixed
(lines 690-796): encode both columns, build the inner header,
bit-concatenate inner header + timestamp bits + value bits, zero-pad
to a byte boundary, checksum, and prepend the outer header. -/
def gorilla_encode_core (ratio_bits : Nat) (creation_time : Int)
    (flags scale_decimals : Nat) (v2 : Bool)
    (timestamps : List Int) (values : List Nat) : List Nat :=
  let ts_result := encode_timestamps timestamps
  let ts_bit_len := ts_result.bits.length
  let val_result := encode_values values
  let val_bit_len := val_result.bits.length
  let inner_header := build_inner_header timestamps.length
    ts_result.first_timestamp val_result.first_value_bits
    ts_result.first_delta ts_bit_len val_bit_len
  let pre_bits := bytesToBits inner_header ++ ts_result.bits ++ val_result.bits
  let pad_bits := (8 - pre_bits.length % 8) % 8
  let packed_bits := pre_bits ++ List.replicate pad_bits false
  let packed_data := bitsToBytes packed_bits
  let checksum := crc32 packed_data
  let outer_header := build_outer_header timestamps.length packed_data.length
    checksum ts_result.first_timestamp ts_result.first_delta
    val_result.first_value_bits ts_bit_len val_bit_len packed_bits.length
    ratio_bits creation_time flags scale_decimals v2
  outer_header ++ packed_data

/-- The three recognized option keys of the encode NIF.
`scale_decimals = none` covers both an absent key and the `:auto`
atom (the source leaves `scale_n = -1` in either case). -/
structure EncodeOpts where
  victoria_metrics : Bool := false
  is_counter : Bool := false
  scale_decimals : Option Int := none

/-- `nif_gorilla_encode`: empty input yields an empty binary before any
option handling; otherwise the non-VM path runs `gorilla_encode_core`
with `flags = 0`, `scale_decimals = 0` and the header version chosen
by `encode_v2`.  The VM preprocessing path transforms values with
IEEE-754 double arithmetic, which is outside this bit-level model, so
the model returns `none` for it. -/
def gorilla_encode (ratio_bits : Nat) (creation_time : Int)
    (samples : List (Int × Nat)) (opts : EncodeOpts) : Option (List Nat) :=
  if samples.isEmpty then some [] else
  if opts.victoria_metrics then none
  else
    some (gorilla_encode_core ratio_bits creation_time 0 0
      (encode_v2 opts.victoria_metrics opts.is_counter 0)
      (samples.map Prod.fst) (samples.map Prod.snd))

/-- `decode_first_delta`: prefix bits one at a time, then the matching
signed payload. -/
def decode_first_delta (l : List Bool) : Option (Int × List Bool) :=
  match l with
  | false :: rest => some (0, rest)
  | true :: false :: rest => readSigned 7 rest
  | true :: true :: false :: rest => readSigned 9 rest
  | true :: true :: true :: false :: rest => readSigned 12 rest
  | true :: true :: true :: true :: rest => readSigned 32 rest
  | _ => none

/-- `decode_delta_of_delta`: identical to `decode_first_delta`. -/
def decode_delta_of_delta (l : List Bool) : Option (Int × List Bool) :=
  match l with
  | false :: rest => some (0, rest)
  | true :: false :: rest => readSigned 7 rest
  | true :: true :: false :: rest => readSigned 9 rest
  | true :: true :: true :: false :: rest => readSigned 12 rest
  | true :: true :: true :: true :: rest => readSigned 32 rest
  | _ => none

/-- The `i = 2 .. count-1` loop of `decode_timestamps`
(`delta[i] = delta[i-1] + dod`, `ts[i] = ts[i-1] + delta[i]`). -/
def decode_timestamps_loop : Nat → Int → Int → List Bool → Option (List Int)
  | 0, _, _, _ => some []
  | n + 1, prev_ts, prev_delta, l =>
    match decode_delta_of_delta l with
    | none => none
    | some (dod, rest) =>
      let current_delta := prev_delta + dod
      let ts := prev_ts + current_delta
      (decode_timestamps_loop n ts current_delta rest).map (fun r => ts :: r)

/-- `decode_timestamps`. -/
def decode_timestamps (count : Nat) (l : List Bool) : Option (List Int) :=
  if count = 0 then some [] else
  match readBitsN 64 l with
  | none => none
  | some (raw, rest) =>
    let first_ts := sext 64 raw
    if count = 1 then some [first_ts] else
    match decode_first_delta rest with
    | none => none
    | some (first_delta, rest2) =>
      let second_ts := first_ts + first_delta
      (decode_timestamps_loop (count - 2) second_ts first_delta rest2).map
        (fun r => first_ts :: second_ts :: r)

/-- The XOR loop of `decode_values`.  In the new-window branch the
source computes `trailing = 64 - leading - meaningful_length` in C
`int` (negative values would feed an undefined left shift); the
truncated `Nat` subtraction plus the explicit `% 2 ^ 64` keeps the
model total at those inputs. -/
def decode_values_loop : Nat → Nat → Nat → Nat → List Bool → Option (List Nat)
  | 0, _, _, _, _ => some []
  | n + 1, prev_bits, prev_leading, prev_trailing, l =>
    match l with
    | false :: rest =>
      (decode_values_loop n prev_bits prev_leading prev_trailing rest).map
        (fun r => prev_bits :: r)
    | true :: false :: rest =>
      let meaningful_length := 64 - prev_leading - prev_trailing
      match readBitsN meaningful_length rest with
      | none => none
      | some (mv, rest2) =>
        let xor_val := (mv <<< prev_trailing) % 2 ^ 64
        let new_bits := prev_bits ^^^ xor_val
        (decode_values_loop n new_bits prev_leading prev_trailing rest2).map
          (fun r => new_bits :: r)
    | true :: true :: rest =>
      match readBitsN 5 rest with
      | none => none
      | some (leading, rest2) =>
        match readBitsN 6 rest2 with
        | none => none
        | some (ml1, rest3) =>
          let meaningful_length := ml1 + 1
          let trailing := 64 - leading - meaningful_length
          match readBitsN meaningful_length rest3 with
          | none => none
          | some (mv, rest4) =>
            let xor_val := (mv <<< trailing) % 2 ^ 64
            let new_bits := prev_bits ^^^ xor_val
            (decode_values_loop n new_bits leading trailing rest4).map
              (fun r => new_bits :: r)
    | _ => none

/-- `decode_values` (values as 64-bit patterns). -/
def decode_values (count : Nat) (l : List Bool) : Option (List Nat) :=
  if count = 0 then some [] else
  match readBitsN 64 l with
  | none => none
  | some (first_bits, rest) =>
    (decode_values_loop (count - 1) first_bits 0 0 rest).map
      (fun r => first_bits :: r)

/-- A big-endian field of `len` bytes at byte offset `off`, as the
decoder's sequential `BitReader` reads extract it (all outer- and
inner-header fields are byte-aligned). -/
def headerField (b : List Nat) (off len : Nat) : Nat :=
  bitsToNat (bytesToBits ((b.drop off).take len))

/-- Outer-header fields the decoder actually uses (the first-sample
duplicates, sizes, checksum, ratio and creation time are read and
discarded by the source). -/
structure OuterHeader where
  header_size : Nat
  count : Nat
  compressed_size : Nat
  flags : Nat
  scale_decimals : Nat
deriving DecidableEq

/-- The outer-header validation of `nif_gorilla_decode` (lines
929-981): length, magic, version, header-size and declared-size
checks, in source order. -/
def parse_outer_header (b : List Nat) : Except String OuterHeader :=
  if b.length < 80 then .error "data too small for header" else
  if headerField b 0 8 ≠ GORILLA_MAGIC then .error "invalid magic number" else
  if 1 < headerField b 8 2 then .error "unsupported version" else
  if ¬(headerField b 10 2 = 80 ∨ headerField b 10 2 = 84) then
    .error "invalid header size" else
  if b.length < headerField b 10 2 then .error "data smaller than header" else
  if b.length < headerField b 10 2 + headerField b 16 4 then
    .error "compressed data extends beyond input"
  else
    .ok ⟨headerField b 10 2, headerField b 12 4, headerField b 16 4,
      headerField b 76 4,
      if headerField b 10 2 = 84 then headerField b 80 4 else 0⟩

/-- Decode output: the (timestamp, value bit pattern) pairs before VM
postprocessing, plus the `flags` and `scale_decimals` header fields
that drive it.  When flag bit 0 is clear the source's result is
exactly `samples`; the VM branch divides by a power of ten and
prefix-sums in IEEE-754 doubles, outside the bit-level model. -/
structure DecodeResult where
  samples : List (Int × Nat)
  flags : Nat
  scale_decimals : Nat
deriving DecidableEq

/-- `nif_gorilla_decode`: empty binary decodes to the empty list;
otherwise validate the outer header, slice the packed block by the
declared compressed size, and run both column decoders over readers
anchored at bit 256 and bit `256 + ts_bit_len`.  The CRC comparison
of the source (lines 983-987) has an empty body — a mismatch changes
nothing — and is therefore absent here.  `gorilla_decode_body` is the
part of the function after the outer-header validation. -/
def gorilla_decode_body (b : List Nat) (h : OuterHeader) :
    Except String DecodeResult :=
  let packed_data := (b.drop h.header_size).take h.compressed_size
  if h.count = 0 then .ok ⟨[], h.flags, h.scale_decimals⟩ else
  if h.compressed_size < 32 then
    .error "packed data too small for inner header" else
  let ts_bit_len := headerField packed_data 24 4
  let pbits := bytesToBits packed_data
  match decode_timestamps h.count (pbits.drop 256) with
  | none => .error "BitReader read past end"
  | some timestamps =>
    match decode_values h.count (pbits.drop (256 + ts_bit_len)) with
    | none => .error "BitReader read past end"
    | some values => .ok ⟨timestamps.zip values, h.flags, h.scale_decimals⟩

def gorilla_decode (b : List Nat) : Except String DecodeResult :=
  if b.length = 0 then .ok ⟨[], 0, 0⟩ else
  match parse_outer_header b with
  | .error e => .error e
  | .ok h => gorilla_decode_body b h

/-- Overwrite the `c.length` bytes of `b` at byte offset `off`
(used to state corruption of individual header fields). -/
def setBytes (b : List Nat) (off : Nat) (c : List Nat) : List Nat :=
  b.take off ++ c ++ b.drop (off + c.length)

theorem toU64_lt (i : Int) : toU64 i < 2 ^ 64 := by
  unfold toU64
  have h1 : (0 : Int) < 2 ^ 64 := by positivity
  have h2 : i % (2 ^ 64 : Int) < 2 ^ 64 := Int.emod_lt_of_pos i h1
  omega

/-- The value a delta takes after one trip through the variable-length
code: the encoder masks it to the selected bucket's payload width and
the decoder sign-extends the raw payload. -/
def delta_reint (d : Int) : Int :=
  if d = 0 then 0
  else if -63 ≤ d ∧ d ≤ 64 then sext 7 (toU64 d % 2 ^ 7)
  else if -255 ≤ d ∧ d ≤ 256 then sext 9 (toU64 d % 2 ^ 9)
  else if -2047 ≤ d ∧ d ≤ 2048 then sext 12 (toU64 d % 2 ^ 12)
  else sext 32 (toU64 d % 2 ^ 32)

/-- The tail of the timestamp list `decode_timestamps` reconstructs
from the encoder's stream, tracking the encoder-side previous delta
and timestamp (`ptd`, `pt`) and the decoder-side ones (`pdd`,
`pdt`). -/
def ts_decoded_loop (ptd : Int) (pt : Int) (pdd : Int) (pdt : Int) :
    List Int → List Int
  | [] => []
  | t :: rest =>
    let current_delta := t - pt
    let dod := current_delta - ptd
    let dec_delta := pdd + delta_reint dod
    let dec_ts := pdt + dec_delta
    dec_ts :: ts_decoded_loop current_delta t dec_delta dec_ts rest

/-- The timestamp list `decode_timestamps` reconstructs from
`encode_timestamps`' stream: exact except where a delta or
delta-of-delta falls on a bucket boundary and is reinterpreted by
`delta_reint`. -/
def ts_decoded (timestamps : List Int) : List Int :=
  match timestamps with
  | [] => []
  | [t0] => [sext 64 (toU64 t0)]
  | t0 :: t1 :: rest =>
    let f := sext 64 (toU64 t0)
    let d := delta_reint (t1 - t0)
    let s := f + d
    f :: s :: ts_decoded_loop (t1 - t0) t1 d s rest

theorem decode_encode_first_delta (d : Int) (r : List Bool) :
    decode_first_delta (encode_first_delta d ++ r) = some (delta_reint d, r) := by
  unfold encode_first_delta delta_reint
  by_cases h0 : d = 0
  · simp only [if_pos h0]
    rfl
  · simp only [if_neg h0]
    by_cases h1 : -63 ≤ d ∧ d ≤ 64
    · simp only [if_pos h1, List.cons_append, List.nil_append]
      exact readSigned_append 7 (toU64 d) r
    · simp only [if_neg h1]
      by_cases h2 : -255 ≤ d ∧ d ≤ 256
      · simp only [if_pos h2, List.cons_append, List.nil_append]
        exact readSigned_append 9 (toU64 d) r
      · simp only [if_neg h2]
        by_cases h3 : -2047 ≤ d ∧ d ≤ 2048
        · simp only [if_pos h3, List.cons_append, List.nil_append]
          exact readSigned_append 12 (toU64 d) r
        · simp only [if_neg h3, List.cons_append, List.nil_append]
          exact readSigned_append 32 (toU64 d) r

theorem decode_encode_dod (d : Int) (r : List Bool) :
    decode_delta_of_delta (encode_delta_of_delta d ++ r)
      = some (delta_reint d, r) := by
  unfold encode_delta_of_delta delta_reint
  by_cases h0 : d = 0
  · simp only [if_pos h0]
    rfl
  · simp only [if_neg h0]
    by_cases h1 : -63 ≤ d ∧ d ≤ 64
    · simp only [if_pos h1, List.cons_append, List.nil_append]
      exact readSigned_append 7 (toU64 d) r
    · simp only [if_neg h1]
      by_cases h2 : -255 ≤ d ∧ d ≤ 256
      · simp only [if_pos h2, List.cons_append, List.nil_append]
        exact readSigned_append 9 (toU64 d) r
      · simp only [if_neg h2]
        by_cases h3 : -2047 ≤ d ∧ d ≤ 2048
        · simp only [if_pos h3, List.cons_append, List.nil_append]
          exact readSigned_append 12 (toU64 d) r
        · simp only [if_neg h3, List.cons_append, List.nil_append]
          exact readSigned_append 32 (toU64 d) r

theorem decode_encode_ts_loop (l : List Int) (ptd pt pdd pdt : Int)
    (r : List Bool) :
    decode_timestamps_loop l.length pdt pdd (encode_timestamps_loop ptd pt l ++ r)
      = some (ts_decoded_loop ptd pt pdd pdt l) := by
  induction l generalizing ptd pt pdd pdt r with
  | nil => rfl
  | cons t rest ih =>
    simp only [encode_timestamps_loop, List.length_cons, List.append_assoc,
      ts_decoded_loop, decode_timestamps_loop]
    rw [decode_encode_dod]
    simp only [Option.map_eq_map]
    rw [ih]
    rfl

theorem decode_encode_timestamps (ts : List Int) (r : List Bool) :
    decode_timestamps ts.length ((encode_timestamps ts).bits ++ r)
      = some (ts_decoded ts) := by
  match ts with
  | [] => rfl
  | [t0] =>
    unfold decode_timestamps
    rw [if_neg (by simp)]
    simp only [encode_timestamps, ts_decoded]
    rw [readBitsN_append, Nat.mod_eq_of_lt (toU64_lt t0)]
    simp
  | t0 :: t1 :: rest =>
    unfold decode_timestamps
    rw [if_neg (by simp)]
    simp only [encode_timestamps, ts_decoded, List.append_assoc]
    rw [readBitsN_append]
    simp only [List.length_cons]
    rw [if_neg (by omega)]
    rw [decode_encode_first_delta]
    simp only [Nat.mod_eq_of_lt (toU64_lt t0)]
    rw [show rest.length + 1 + 1 - 2 = rest.length by omega]
    rw [decode_encode_ts_loop]
    rfl

theorem decode_encode_values_loop (l : List Nat) (prev : Nat) (r : List Bool)
    (hprev : prev < 2 ^ 64) (hl : ∀ v ∈ l, v < 2 ^ 64) :
    decode_values_loop l.length prev 0 0 (encode_values_loop prev 0 0 l ++ r)
      = some l := by
  induction l generalizing prev r with
  | nil => rfl
  | cons c rest ih =>
    have hc : c < 2 ^ 64 := hl c (by simp)
    have hrest : ∀ v ∈ rest, v < 2 ^ 64 := fun v hv => hl v (by simp [hv])
    simp only [encode_values_loop, List.length_cons]
    by_cases hx : c ^^^ prev = 0
    · simp only [if_pos hx, List.cons_append]
      have hcp : c = prev := by
        have h1 : c = c ^^^ prev ^^^ prev := by
          rw [Nat.xor_assoc, Nat.xor_self, Nat.xor_zero]
        rw [h1, hx, Nat.zero_xor]
      simp only [decode_values_loop]
      rw [hcp]
      rw [ih prev r hprev hrest]
      rfl
    · have hcond : (0 : Nat) ≤ count_leading_zeros_64 (c ^^^ prev) ∧
          (0 : Nat) ≤ count_trailing_zeros_64 (c ^^^ prev) ∧
          0 < 64 - 0 - 0 := ⟨Nat.zero_le _, Nat.zero_le _, by norm_num⟩
      have hxlt : c ^^^ prev < 2 ^ 64 := Nat.xor_lt_two_pow hc hprev
      have hnew : prev ^^^ (c ^^^ prev) = c := by
        rw [Nat.xor_comm c prev, ← Nat.xor_assoc, Nat.xor_self, Nat.zero_xor]
      simp only [if_neg hx, if_pos hcond, Nat.sub_zero, Nat.shiftRight_zero,
        List.cons_append, List.nil_append, List.append_assoc]
      simp only [decode_values_loop, Nat.sub_zero]
      rw [readBitsN_append]
      simp only [Nat.mod_eq_of_lt hxlt, Nat.shiftLeft_zero]
      simp only [Nat.mod_eq_of_lt hxlt, hnew]
      rw [ih c r hc hrest]
      rfl

theorem decode_encode_values (vs : List Nat) (r : List Bool)
    (hv : ∀ v ∈ vs, v < 2 ^ 64) :
    decode_values vs.length ((encode_values vs).bits ++ r) = some vs := by
  match vs with
  | [] => rfl
  | v0 :: rest =>
    have h0 : v0 < 2 ^ 64 := hv v0 (by simp)
    have hrest : ∀ v ∈ rest, v < 2 ^ 64 := fun v hvv => hv v (by simp [hvv])
    unfold decode_values
    rw [if_neg (by simp)]
    simp only [encode_values, List.append_assoc]
    rw [readBitsN_append]
    simp only [Nat.mod_eq_of_lt h0, List.length_cons, Nat.add_sub_cancel]
    rw [decode_encode_values_loop rest v0 r h0 hrest]
    rfl

/-- Positional-argument forms of the drop-all and take-all lemmas. -/
theorem drop_len_le {α : Type} (l : List α) (k : Nat) (h : l.length ≤ k) :
    l.drop k = [] :=
  List.drop_eq_nil_of_le h

theorem take_len_le {α : Type} (l : List α) (k : Nat) (h : l.length ≤ k) :
    l.take k = l :=
  List.take_of_length_le h

theorem bytesToBits_drop (b : List Nat) (n : Nat) :
    bytesToBits (b.drop n) = (bytesToBits b).drop (8 * n) := by
  induction b generalizing n with
  | nil => simp [bytesToBits]
  | cons x r ih =>
    cases n with
    | zero => simp
    | succ n =>
      show bytesToBits (r.drop n) = (toBits 8 x ++ bytesToBits r).drop (8 * (n + 1))
      rw [List.drop_append_eq_append_drop, length_toBits,
        drop_len_le (toBits 8 x) _ (by rw [length_toBits]; omega),
        List.nil_append, ih n]
      rw [show 8 * (n + 1) - 8 = 8 * n from by omega]

theorem bytesToBits_take (b : List Nat) (n : Nat) :
    bytesToBits (b.take n) = (bytesToBits b).take (8 * n) := by
  induction b generalizing n with
  | nil => simp [bytesToBits]
  | cons x r ih =>
    cases n with
    | zero => simp [bytesToBits]
    | succ n =>
      show toBits 8 x ++ bytesToBits (r.take n)
          = (toBits 8 x ++ bytesToBits r).take (8 * (n + 1))
      rw [List.take_append_eq_append_take, length_toBits,
        take_len_le (toBits 8 x) _ (by rw [length_toBits]; omega),
        ih n]
      rw [show 8 * (n + 1) - 8 = 8 * n from by omega]

theorem headerField_eq_bits (b : List Nat) (off len : Nat) :
    headerField b off len
      = bitsToNat (((bytesToBits b).drop (8 * off)).take (8 * len)) := by
  unfold headerField
  rw [bytesToBits_take, bytesToBits_drop]

theorem drop_toBits_append (n v k : Nat) (rest : List Bool) (h : n ≤ k) :
    (toBits n v ++ rest).drop k = rest.drop (k - n) := by
  rw [List.drop_append_eq_append_drop, length_toBits,
    drop_len_le (toBits n v) _ (by rw [length_toBits]; omega),
    List.nil_append]

theorem take_toBits_append (n v : Nat) (rest : List Bool) :
    (toBits n v ++ rest).take n = toBits n v :=
  List.take_left' (length_toBits n v)

theorem length_outer_bits (count compressed_size checksum : Nat)
    (first_timestamp first_delta : Int) (first_value_bits : Nat)
    (ts_bit_len val_bit_len total_bits ratio_bits : Nat)
    (creation_time : Int) (flags scale_decimals : Nat) (v2 : Bool) :
    (outer_bits count compressed_size checksum first_timestamp first_delta
        first_value_bits ts_bit_len val_bit_len total_bits ratio_bits
        creation_time flags scale_decimals v2).length
      = if v2 then 672 else 640 := by
  cases v2 <;> simp [outer_bits]

theorem length_build_outer_header (count compressed_size checksum : Nat)
    (first_timestamp first_delta : Int) (first_value_bits : Nat)
    (ts_bit_len val_bit_len total_bits ratio_bits : Nat)
    (creation_time : Int) (flags scale_decimals : Nat) (v2 : Bool) :
    (build_outer_header count compressed_size checksum first_timestamp
        first_delta first_value_bits ts_bit_len val_bit_len total_bits
        ratio_bits creation_time flags scale_decimals v2).length
      = if v2 then 84 else 80 := by
  unfold build_outer_header
  have h8 : 8 ∣ (outer_bits count compressed_size checksum first_timestamp
      first_delta first_value_bits ts_bit_len val_bit_len total_bits
      ratio_bits creation_time flags scale_decimals v2).length := by
    rw [length_outer_bits]
    cases v2 <;> decide
  have h := length_bitsToBytes _ h8
  rw [length_outer_bits] at h
  cases v2 <;> simp at h ⊢ <;> omega

theorem length_inner_bits (count : Nat) (first_timestamp : Int)
    (first_value_bits : Nat) (first_delta : Int) (ts_bit_len val_bit_len : Nat) :
    (inner_bits count first_timestamp first_value_bits first_delta
        ts_bit_len val_bit_len).length = 256 := by
  simp [inner_bits]

theorem length_build_inner_header (count : Nat) (first_timestamp : Int)
    (first_value_bits : Nat) (first_delta : Int) (ts_bit_len val_bit_len : Nat) :
    (build_inner_header count first_timestamp first_value_bits first_delta
        ts_bit_len val_bit_len).length = 32 := by
  unfold build_inner_header
  have h := length_bitsToBytes _ (by rw [length_inner_bits]; decide :
    8 ∣ (inner_bits count first_timestamp first_value_bits first_delta
      ts_bit_len val_bit_len).length)
  rw [length_inner_bits] at h
  omega

theorem headerField_build_outer (count compressed_size checksum : Nat)
    (first_timestamp first_delta : Int) (first_value_bits : Nat)
    (ts_bit_len val_bit_len total_bits ratio_bits : Nat)
    (creation_time : Int) (flags scale_decimals : Nat) (v2 : Bool)
    (rest : List Nat) (off len : Nat) :
    headerField (build_outer_header count compressed_size checksum
        first_timestamp first_delta first_value_bits ts_bit_len val_bit_len
        total_bits ratio_bits creation_time flags scale_decimals v2 ++ rest)
        off len
      = bitsToNat (((outer_bits count compressed_size checksum first_timestamp
          first_delta first_value_bits ts_bit_len val_bit_len total_bits
          ratio_bits creation_time flags scale_decimals v2
          ++ bytesToBits rest).drop (8 * off)).take (8 * len)) := by
  rw [headerField_eq_bits]
  unfold build_outer_header
  rw [bytesToBits_append, bytesToBits_bitsToBytes _ (by
    rw [length_outer_bits]
    cases v2 <;> decide)]

theorem parse_outer_header_encode
    (count compressed_size checksum first_value_bits : Nat)
    (ts_bit_len val_bit_len total_bits ratio_bits flags scale_decimals : Nat)
    (first_timestamp first_delta creation_time : Int)
    (rest : List Nat)
    (hcount : count < 2 ^ 32) (hcs : compressed_size < 2 ^ 32)
    (hflags : flags < 2 ^ 32) (hrest : compressed_size ≤ rest.length) :
    parse_outer_header
        (build_outer_header count compressed_size checksum first_timestamp
          first_delta first_value_bits ts_bit_len val_bit_len total_bits
          ratio_bits creation_time flags scale_decimals false ++ rest)
      = .ok ⟨80, count, compressed_size, flags, 0⟩ := by
  have hlenO := length_build_outer_header count compressed_size checksum
    first_timestamp first_delta first_value_bits ts_bit_len val_bit_len
    total_bits ratio_bits creation_time flags scale_decimals false
  simp only [Bool.false_eq_true, if_false] at hlenO
  have hlenB : (build_outer_header count compressed_size checksum first_timestamp
      first_delta first_value_bits ts_bit_len val_bit_len total_bits
      ratio_bits creation_time flags scale_decimals false ++ rest).length
      = 80 + rest.length := by
    rw [List.length_append, hlenO]
  have f0 : headerField (build_outer_header count compressed_size checksum
      first_timestamp first_delta first_value_bits ts_bit_len val_bit_len
      total_bits ratio_bits creation_time flags scale_decimals false ++ rest)
      0 8 = GORILLA_MAGIC := by
    rw [headerField_build_outer]
    unfold outer_bits GORILLA_MAGIC
    simp [take_toBits_append, bitsToNat_toBits]
  have f8 : headerField (build_outer_header count compressed_size checksum
      first_timestamp first_delta first_value_bits ts_bit_len val_bit_len
      total_bits ratio_bits creation_time flags scale_decimals false ++ rest)
      8 2 = 1 := by
    rw [headerField_build_outer]
    unfold outer_bits
    simp [drop_toBits_append, take_toBits_append, bitsToNat_toBits]
  have f10 : headerField (build_outer_header count compressed_size checksum
      first_timestamp first_delta first_value_bits ts_bit_len val_bit_len
      total_bits ratio_bits creation_time flags scale_decimals false ++ rest)
      10 2 = 80 := by
    rw [headerField_build_outer]
    unfold outer_bits
    simp [drop_toBits_append, take_toBits_append, bitsToNat_toBits]
  have f12 : headerField (build_outer_header count compressed_size checksum
      first_timestamp first_delta first_value_bits ts_bit_len val_bit_len
      total_bits ratio_bits creation_time flags scale_decimals false ++ rest)
      12 4 = count := by
    rw [headerField_build_outer]
    unfold outer_bits
    simp [drop_toBits_append, take_toBits_append, bitsToNat_toBits,
      Nat.mod_eq_of_lt]
    omega
  have f16 : headerField (build_outer_header count compressed_size checksum
      first_timestamp first_delta first_value_bits ts_bit_len val_bit_len
      total_bits ratio_bits creation_time flags scale_decimals false ++ rest)
      16 4 = compressed_size := by
    rw [headerField_build_outer]
    unfold outer_bits
    simp [drop_toBits_append, take_toBits_append, bitsToNat_toBits,
      Nat.mod_eq_of_lt]
    omega
  have f76 : headerField (build_outer_header count compressed_size checksum
      first_timestamp first_delta first_value_bits ts_bit_len val_bit_len
      total_bits ratio_bits creation_time flags scale_decimals false ++ rest)
      76 4 = flags := by
    rw [headerField_build_outer]
    unfold outer_bits
    simp [drop_toBits_append, take_toBits_append, bitsToNat_toBits,
      Nat.mod_eq_of_lt]
    omega
  unfold parse_outer_header
  rw [hlenB, f0, f8, f10, f12, f16, f76]
  rw [if_neg (by omega), if_neg (by simp), if_neg (by norm_num),
    if_neg (by norm_num), if_neg (by omega), if_neg (by omega),
    if_neg (by norm_num)]

theorem gorilla_decode_of_parse (b : List Nat) (h : OuterHeader)
    (hb : ¬b.length = 0) (hp : parse_outer_header b = .ok h) :
    gorilla_decode b = gorilla_decode_body b h := by
  unfold gorilla_decode
  rw [if_neg hb, hp]

theorem encode_first_delta_length (d : Int) :
    (encode_first_delta d).length ≤ 36 := by
  unfold encode_first_delta
  split_ifs <;> simp

theorem encode_dod_length (d : Int) :
    (encode_delta_of_delta d).length ≤ 36 := by
  unfold encode_delta_of_delta
  split_ifs <;> simp

theorem encode_timestamps_loop_length (l : List Int) (pd pt : Int) :
    (encode_timestamps_loop pd pt l).length ≤ 36 * l.length := by
  induction l generalizing pd pt with
  | nil => simp [encode_timestamps_loop]
  | cons t rest ih =>
    simp only [encode_timestamps_loop, List.length_append, List.length_cons]
    have h1 := encode_dod_length ((t - pt) - pd)
    have h2 := ih (t - pt) t
    omega

theorem encode_timestamps_length (ts : List Int) :
    (encode_timestamps ts).bits.length ≤ 64 + 36 * ts.length := by
  match ts with
  | [] => simp [encode_timestamps]
  | [t0] => simp [encode_timestamps]
  | t0 :: t1 :: rest =>
    simp only [encode_timestamps, List.length_append, length_toBits,
      List.length_cons]
    have h1 := encode_first_delta_length (t1 - t0)
    have h2 := encode_timestamps_loop_length rest (t1 - t0) t1
    omega

theorem encode_values_loop_length (l : List Nat) (prev pl pt : Nat) :
    (encode_values_loop prev pl pt l).length ≤ 77 * l.length := by
  induction l generalizing prev pl pt with
  | nil => simp [encode_values_loop]
  | cons c rest ih =>
    simp only [encode_values_loop]
    by_cases hx : c ^^^ prev = 0
    · simp only [if_pos hx, List.length_cons]
      have h2 := ih c pl pt
      omega
    · by_cases hc : pl ≤ count_leading_zeros_64 (c ^^^ prev) ∧
          pt ≤ count_trailing_zeros_64 (c ^^^ prev) ∧ 0 < 64 - pl - pt
      · simp only [if_neg hx, if_pos hc, List.length_append, List.length_cons,
          List.length_nil, length_toBits]
        have h2 := ih c pl pt
        omega
      · simp only [if_neg hx, if_neg hc, List.length_append, List.length_cons,
          List.length_nil, length_toBits]
        have h2 := ih c (min (count_leading_zeros_64 (c ^^^ prev)) 31)
          (count_trailing_zeros_64 (c ^^^ prev))
        have h3 : max 1 (min 64 (64 - count_leading_zeros_64 (c ^^^ prev)
            - count_trailing_zeros_64 (c ^^^ prev))) ≤ 64 := by omega
        omega

theorem encode_values_length (vs : List Nat) :
    (encode_values vs).bits.length ≤ 64 + 77 * vs.length := by
  match vs with
  | [] => simp [encode_values]
  | v0 :: rest =>
    simp only [encode_values, List.length_append, length_toBits,
      List.length_cons]
    have h2 := encode_values_loop_length rest v0 0 0
    omega

theorem gorilla_decode_body_fields (b : List Nat) (hs cnt cs fl sc : Nat) :
    gorilla_decode_body b ⟨hs, cnt, cs, fl, sc⟩
      = (if cnt = 0 then .ok ⟨[], fl, sc⟩ else
        if cs < 32 then .error "packed data too small for inner header" else
        match decode_timestamps cnt
            ((bytesToBits ((b.drop hs).take cs)).drop 256) with
        | none => .error "BitReader read past end"
        | some timestamps =>
          match decode_values cnt
              ((bytesToBits ((b.drop hs).take cs)).drop
                (256 + headerField ((b.drop hs).take cs) 24 4)) with
          | none => .error "BitReader read past end"
          | some values => .ok ⟨timestamps.zip values, fl, sc⟩) := rfl

set_option maxHeartbeats 2000000 in
/-- Decoding an encoder output (non-VM path): always succeeds, returns
the original value bit patterns exactly, and the timestamps after
`delta_reint` reinterpretation. -/
theorem gorilla_decode_encode (ratio_bits : Nat) (creation_time : Int)
    (ts : List Int) (vs : List Nat) (hne : ts ≠ [])
    (hlen : vs.length = ts.length) (hcnt : ts.length < 2 ^ 26)
    (hv : ∀ v ∈ vs, v < 2 ^ 64) :
    gorilla_decode (gorilla_encode_core ratio_bits creation_time 0 0 false ts vs)
      = .ok ⟨(ts_decoded ts).zip vs, 0, 0⟩ := by
  have hne0 : ¬ts.length = 0 := fun h => hne (List.length_eq_zero.mp h)
  have hts_b := encode_timestamps_length ts
  have hvs_b := encode_values_length vs
  have hcnt32 : ts.length < 2 ^ 32 := by omega
  have hinner_len : (build_inner_header ts.length (encode_timestamps ts).first_timestamp (encode_values vs).first_value_bits (encode_timestamps ts).first_delta (encode_timestamps ts).bits.length (encode_values vs).bits.length).length = 32 := length_build_inner_header _ _ _ _ _ _
  have hpre_len : ((bytesToBits (build_inner_header ts.length (encode_timestamps ts).first_timestamp (encode_values vs).first_value_bits (encode_timestamps ts).first_delta (encode_timestamps ts).bits.length (encode_values vs).bits.length) ++ (encode_timestamps ts).bits ++ (encode_values vs).bits)).length = 256 + (encode_timestamps ts).bits.length + (encode_values vs).bits.length := by
    rw [List.length_append, List.length_append, length_bytesToBits, hinner_len]
  have hpb_len : (((bytesToBits (build_inner_header ts.length (encode_timestamps ts).first_timestamp (encode_values vs).first_value_bits (encode_timestamps ts).first_delta (encode_timestamps ts).bits.length (encode_values vs).bits.length) ++ (encode_timestamps ts).bits ++ (encode_values vs).bits) ++ List.replicate ((8 - (bytesToBits (build_inner_header ts.length (encode_timestamps ts).first_timestamp (encode_values vs).first_value_bits (encode_timestamps ts).first_delta (encode_timestamps ts).bits.length (encode_values vs).bits.length) ++ (encode_timestamps ts).bits ++ (encode_values vs).bits).length % 8) % 8) false)).length
      = ((bytesToBits (build_inner_header ts.length (encode_timestamps ts).first_timestamp (encode_values vs).first_value_bits (encode_timestamps ts).first_delta (encode_timestamps ts).bits.length (encode_values vs).bits.length) ++ (encode_timestamps ts).bits ++ (encode_values vs).bits)).length + (8 - ((bytesToBits (build_inner_header ts.length (encode_timestamps ts).first_timestamp (encode_values vs).first_value_bits (encode_timestamps ts).first_delta (encode_timestamps ts).bits.length (encode_values vs).bits.length) ++ (encode_timestamps ts).bits ++ (encode_values vs).bits)).length % 8) % 8 := by
    rw [List.length_append, List.length_replicate]
  have hdvd : 8 ∣ (((bytesToBits (build_inner_header ts.length (encode_timestamps ts).first_timestamp (encode_values vs).first_value_bits (encode_timestamps ts).first_delta (encode_timestamps ts).bits.length (encode_values vs).bits.length) ++ (encode_timestamps ts).bits ++ (encode_values vs).bits) ++ List.replicate ((8 - (bytesToBits (build_inner_header ts.length (encode_timestamps ts).first_timestamp (encode_values vs).first_value_bits (encode_timestamps ts).first_delta (encode_timestamps ts).bits.length (encode_values vs).bits.length) ++ (encode_timestamps ts).bits ++ (encode_values vs).bits).length % 8) % 8) false)).length := by
    rw [hpb_len]
    omega
  have hpacked8 : 8 * (bitsToBytes ((bytesToBits (build_inner_header ts.length (encode_timestamps ts).first_timestamp (encode_values vs).first_value_bits (encode_timestamps ts).first_delta (encode_timestamps ts).bits.length (encode_values vs).bits.length) ++ (encode_timestamps ts).bits ++ (encode_values vs).bits) ++ List.replicate ((8 - (bytesToBits (build_inner_header ts.length (encode_timestamps ts).first_timestamp (encode_values vs).first_value_bits (encode_timestamps ts).first_delta (encode_timestamps ts).bits.length (encode_values vs).bits.length) ++ (encode_timestamps ts).bits ++ (encode_values vs).bits).length % 8) % 8) false)).length = (((bytesToBits (build_inner_header ts.length (encode_timestamps ts).first_timestamp (encode_values vs).first_value_bits (encode_timestamps ts).first_delta (encode_timestamps ts).bits.length (encode_values vs).bits.length) ++ (encode_timestamps ts).bits ++ (encode_values vs).bits) ++ List.replicate ((8 - (bytesToBits (build_inner_header ts.length (encode_timestamps ts).first_timestamp (encode_values vs).first_value_bits (encode_timestamps ts).first_delta (encode_timestamps ts).bits.length (encode_values vs).bits.length) ++ (encode_timestamps ts).bits ++ (encode_values vs).bits).length % 8) % 8) false)).length :=
    length_bitsToBytes _ hdvd
  rw [hpb_len] at hpacked8
  have hpc_lt : (bitsToBytes ((bytesToBits (build_inner_header ts.length (encode_timestamps ts).first_timestamp (encode_values vs).first_value_bits (encode_timestamps ts).first_delta (encode_timestamps ts).bits.length (encode_values vs).bits.length) ++ (encode_timestamps ts).bits ++ (encode_values vs).bits) ++ List.replicate ((8 - (bytesToBits (build_inner_header ts.length (encode_timestamps ts).first_timestamp (encode_values vs).first_value_bits (encode_timestamps ts).first_delta (encode_timestamps ts).bits.length (encode_values vs).bits.length) ++ (encode_timestamps ts).bits ++ (encode_values vs).bits).length % 8) % 8) false)).length < 2 ^ 32 := by
    omega
  have hpc_ge : 32 ≤ (bitsToBytes ((bytesToBits (build_inner_header ts.length (encode_timestamps ts).first_timestamp (encode_values vs).first_value_bits (encode_timestamps ts).first_delta (encode_timestamps ts).bits.length (encode_values vs).bits.length) ++ (encode_timestamps ts).bits ++ (encode_values vs).bits) ++ List.replicate ((8 - (bytesToBits (build_inner_header ts.length (encode_timestamps ts).first_timestamp (encode_values vs).first_value_bits (encode_timestamps ts).first_delta (encode_timestamps ts).bits.length (encode_values vs).bits.length) ++ (encode_timestamps ts).bits ++ (encode_values vs).bits).length % 8) % 8) false)).length := by
    omega
  have htl_lt : ((encode_timestamps ts).bits).length < 2 ^ 32 := by omega
  have hlenO : (build_outer_header ts.length (bitsToBytes ((bytesToBits (build_inner_header ts.length (encode_timestamps ts).first_timestamp (encode_values vs).first_value_bits (encode_timestamps ts).first_delta (encode_timestamps ts).bits.length (encode_values vs).bits.length) ++ (encode_timestamps ts).bits ++ (encode_values vs).bits) ++ List.replicate ((8 - (bytesToBits (build_inner_header ts.length (encode_timestamps ts).first_timestamp (encode_values vs).first_value_bits (encode_timestamps ts).first_delta (encode_timestamps ts).bits.length (encode_values vs).bits.length) ++ (encode_timestamps ts).bits ++ (encode_values vs).bits).length % 8) % 8) false)).length (crc32 (bitsToBytes ((bytesToBits (build_inner_header ts.length (encode_timestamps ts).first_timestamp (encode_values vs).first_value_bits (encode_timestamps ts).first_delta (encode_timestamps ts).bits.length (encode_values vs).bits.length) ++ (encode_timestamps ts).bits ++ (encode_values vs).bits) ++ List.replicate ((8 - (bytesToBits (build_inner_header ts.length (encode_timestamps ts).first_timestamp (encode_values vs).first_value_bits (encode_timestamps ts).first_delta (encode_timestamps ts).bits.length (encode_values vs).bits.length) ++ (encode_timestamps ts).bits ++ (encode_values vs).bits).length % 8) % 8) false))) (encode_timestamps ts).first_timestamp (encode_timestamps ts).first_delta (encode_values vs).first_value_bits (encode_timestamps ts).bits.length (encode_values vs).bits.length (((bytesToBits (build_inner_header ts.length (encode_timestamps ts).first_timestamp (encode_values vs).first_value_bits (encode_timestamps ts).first_delta (encode_timestamps ts).bits.length (encode_values vs).bits.length) ++ (encode_timestamps ts).bits ++ (encode_values vs).bits) ++ List.replicate ((8 - (bytesToBits (build_inner_header ts.length (encode_timestamps ts).first_timestamp (encode_values vs).first_value_bits (encode_timestamps ts).first_delta (encode_timestamps ts).bits.length (encode_values vs).bits.length) ++ (encode_timestamps ts).bits ++ (encode_values vs).bits).length % 8) % 8) false)).length ratio_bits creation_time 0 0 false).length = 80 := by
    rw [length_build_outer_header]
    simp
  have hcore : gorilla_encode_core ratio_bits creation_time 0 0 false ts vs
      = build_outer_header ts.length (bitsToBytes ((bytesToBits (build_inner_header ts.length (encode_timestamps ts).first_timestamp (encode_values vs).first_value_bits (encode_timestamps ts).first_delta (encode_timestamps ts).bits.length (encode_values vs).bits.length) ++ (encode_timestamps ts).bits ++ (encode_values vs).bits) ++ List.replicate ((8 - (bytesToBits (build_inner_header ts.length (encode_timestamps ts).first_timestamp (encode_values vs).first_value_bits (encode_timestamps ts).first_delta (encode_timestamps ts).bits.length (encode_values vs).bits.length) ++ (encode_timestamps ts).bits ++ (encode_values vs).bits).length % 8) % 8) false)).length (crc32 (bitsToBytes ((bytesToBits (build_inner_header ts.length (encode_timestamps ts).first_timestamp (encode_values vs).first_value_bits (encode_timestamps ts).first_delta (encode_timestamps ts).bits.length (encode_values vs).bits.length) ++ (encode_timestamps ts).bits ++ (encode_values vs).bits) ++ List.replicate ((8 - (bytesToBits (build_inner_header ts.length (encode_timestamps ts).first_timestamp (encode_values vs).first_value_bits (encode_timestamps ts).first_delta (encode_timestamps ts).bits.length (encode_values vs).bits.length) ++ (encode_timestamps ts).bits ++ (encode_values vs).bits).length % 8) % 8) false))) (encode_timestamps ts).first_timestamp (encode_timestamps ts).first_delta (encode_values vs).first_value_bits (encode_timestamps ts).bits.length (encode_values vs).bits.length (((bytesToBits (build_inner_header ts.length (encode_timestamps ts).first_timestamp (encode_values vs).first_value_bits (encode_timestamps ts).first_delta (encode_timestamps ts).bits.length (encode_values vs).bits.length) ++ (encode_timestamps ts).bits ++ (encode_values vs).bits) ++ List.replicate ((8 - (bytesToBits (build_inner_header ts.length (encode_timestamps ts).first_timestamp (encode_values vs).first_value_bits (encode_timestamps ts).first_delta (encode_timestamps ts).bits.length (encode_values vs).bits.length) ++ (encode_timestamps ts).bits ++ (encode_values vs).bits).length % 8) % 8) false)).length ratio_bits creation_time 0 0 false ++ bitsToBytes ((bytesToBits (build_inner_header ts.length (encode_timestamps ts).first_timestamp (encode_values vs).first_value_bits (encode_timestamps ts).first_delta (encode_timestamps ts).bits.length (encode_values vs).bits.length) ++ (encode_timestamps ts).bits ++ (encode_values vs).bits) ++ List.replicate ((8 - (bytesToBits (build_inner_header ts.length (encode_timestamps ts).first_timestamp (encode_values vs).first_value_bits (encode_timestamps ts).first_delta (encode_timestamps ts).bits.length (encode_values vs).bits.length) ++ (encode_timestamps ts).bits ++ (encode_values vs).bits).length % 8) % 8) false) := rfl
  have hparse : parse_outer_header (build_outer_header ts.length (bitsToBytes ((bytesToBits (build_inner_header ts.length (encode_timestamps ts).first_timestamp (encode_values vs).first_value_bits (encode_timestamps ts).first_delta (encode_timestamps ts).bits.length (encode_values vs).bits.length) ++ (encode_timestamps ts).bits ++ (encode_values vs).bits) ++ List.replicate ((8 - (bytesToBits (build_inner_header ts.length (encode_timestamps ts).first_timestamp (encode_values vs).first_value_bits (encode_timestamps ts).first_delta (encode_timestamps ts).bits.length (encode_values vs).bits.length) ++ (encode_timestamps ts).bits ++ (encode_values vs).bits).length % 8) % 8) false)).length (crc32 (bitsToBytes ((bytesToBits (build_inner_header ts.length (encode_timestamps ts).first_timestamp (encode_values vs).first_value_bits (encode_timestamps ts).first_delta (encode_timestamps ts).bits.length (encode_values vs).bits.length) ++ (encode_timestamps ts).bits ++ (encode_values vs).bits) ++ List.replicate ((8 - (bytesToBits (build_inner_header ts.length (encode_timestamps ts).first_timestamp (encode_values vs).first_value_bits (encode_timestamps ts).first_delta (encode_timestamps ts).bits.length (encode_values vs).bits.length) ++ (encode_timestamps ts).bits ++ (encode_values vs).bits).length % 8) % 8) false))) (encode_timestamps ts).first_timestamp (encode_timestamps ts).first_delta (encode_values vs).first_value_bits (encode_timestamps ts).bits.length (encode_values vs).bits.length (((bytesToBits (build_inner_header ts.length (encode_timestamps ts).first_timestamp (encode_values vs).first_value_bits (encode_timestamps ts).first_delta (encode_timestamps ts).bits.length (encode_values vs).bits.length) ++ (encode_timestamps ts).bits ++ (encode_values vs).bits) ++ List.replicate ((8 - (bytesToBits (build_inner_header ts.length (encode_timestamps ts).first_timestamp (encode_values vs).first_value_bits (encode_timestamps ts).first_delta (encode_timestamps ts).bits.length (encode_values vs).bits.length) ++ (encode_timestamps ts).bits ++ (encode_values vs).bits).length % 8) % 8) false)).length ratio_bits creation_time 0 0 false ++ bitsToBytes ((bytesToBits (build_inner_header ts.length (encode_timestamps ts).first_timestamp (encode_values vs).first_value_bits (encode_timestamps ts).first_delta (encode_timestamps ts).bits.length (encode_values vs).bits.length) ++ (encode_timestamps ts).bits ++ (encode_values vs).bits) ++ List.replicate ((8 - (bytesToBits (build_inner_header ts.length (encode_timestamps ts).first_timestamp (encode_values vs).first_value_bits (encode_timestamps ts).first_delta (encode_timestamps ts).bits.length (encode_values vs).bits.length) ++ (encode_timestamps ts).bits ++ (encode_values vs).bits).length % 8) % 8) false))
      = .ok ⟨80, ts.length, (bitsToBytes ((bytesToBits (build_inner_header ts.length (encode_timestamps ts).first_timestamp (encode_values vs).first_value_bits (encode_timestamps ts).first_delta (encode_timestamps ts).bits.length (encode_values vs).bits.length) ++ (encode_timestamps ts).bits ++ (encode_values vs).bits) ++ List.replicate ((8 - (bytesToBits (build_inner_header ts.length (encode_timestamps ts).first_timestamp (encode_values vs).first_value_bits (encode_timestamps ts).first_delta (encode_timestamps ts).bits.length (encode_values vs).bits.length) ++ (encode_timestamps ts).bits ++ (encode_values vs).bits).length % 8) % 8) false)).length, 0, 0⟩ :=
    parse_outer_header_encode _ _ _ _ _ _ _ _ _ _ _ _ _ _
      hcnt32 hpc_lt (by norm_num) (le_refl _)
  have hblen : ¬(build_outer_header ts.length (bitsToBytes ((bytesToBits (build_inner_header ts.length (encode_timestamps ts).first_timestamp (encode_values vs).first_value_bits (encode_timestamps ts).first_delta (encode_timestamps ts).bits.length (encode_values vs).bits.length) ++ (encode_timestamps ts).bits ++ (encode_values vs).bits) ++ List.replicate ((8 - (bytesToBits (build_inner_header ts.length (encode_timestamps ts).first_timestamp (encode_values vs).first_value_bits (encode_timestamps ts).first_delta (encode_timestamps ts).bits.length (encode_values vs).bits.length) ++ (encode_timestamps ts).bits ++ (encode_values vs).bits).length % 8) % 8) false)).length (crc32 (bitsToBytes ((bytesToBits (build_inner_header ts.length (encode_timestamps ts).first_timestamp (encode_values vs).first_value_bits (encode_timestamps ts).first_delta (encode_timestamps ts).bits.length (encode_values vs).bits.length) ++ (encode_timestamps ts).bits ++ (encode_values vs).bits) ++ List.replicate ((8 - (bytesToBits (build_inner_header ts.length (encode_timestamps ts).first_timestamp (encode_values vs).first_value_bits (encode_timestamps ts).first_delta (encode_timestamps ts).bits.length (encode_values vs).bits.length) ++ (encode_timestamps ts).bits ++ (encode_values vs).bits).length % 8) % 8) false))) (encode_timestamps ts).first_timestamp (encode_timestamps ts).first_delta (encode_values vs).first_value_bits (encode_timestamps ts).bits.length (encode_values vs).bits.length (((bytesToBits (build_inner_header ts.length (encode_timestamps ts).first_timestamp (encode_values vs).first_value_bits (encode_timestamps ts).first_delta (encode_timestamps ts).bits.length (encode_values vs).bits.length) ++ (encode_timestamps ts).bits ++ (encode_values vs).bits) ++ List.replicate ((8 - (bytesToBits (build_inner_header ts.length (encode_timestamps ts).first_timestamp (encode_values vs).first_value_bits (encode_timestamps ts).first_delta (encode_timestamps ts).bits.length (encode_values vs).bits.length) ++ (encode_timestamps ts).bits ++ (encode_values vs).bits).length % 8) % 8) false)).length ratio_bits creation_time 0 0 false ++ bitsToBytes ((bytesToBits (build_inner_header ts.length (encode_timestamps ts).first_timestamp (encode_values vs).first_value_bits (encode_timestamps ts).first_delta (encode_timestamps ts).bits.length (encode_values vs).bits.length) ++ (encode_timestamps ts).bits ++ (encode_values vs).bits) ++ List.replicate ((8 - (bytesToBits (build_inner_header ts.length (encode_timestamps ts).first_timestamp (encode_values vs).first_value_bits (encode_timestamps ts).first_delta (encode_timestamps ts).bits.length (encode_values vs).bits.length) ++ (encode_timestamps ts).bits ++ (encode_values vs).bits).length % 8) % 8) false)).length = 0 := by
    rw [List.length_append, hlenO]
    omega
  have hibits : bytesToBits (build_inner_header ts.length (encode_timestamps ts).first_timestamp (encode_values vs).first_value_bits (encode_timestamps ts).first_delta (encode_timestamps ts).bits.length (encode_values vs).bits.length) = inner_bits ts.length (encode_timestamps ts).first_timestamp (encode_values vs).first_value_bits (encode_timestamps ts).first_delta (encode_timestamps ts).bits.length (encode_values vs).bits.length := by
    unfold build_inner_header
    exact bytesToBits_bitsToBytes _ (by rw [length_inner_bits]; decide)
  have hpbits : bytesToBits (bitsToBytes ((bytesToBits (build_inner_header ts.length (encode_timestamps ts).first_timestamp (encode_values vs).first_value_bits (encode_timestamps ts).first_delta (encode_timestamps ts).bits.length (encode_values vs).bits.length) ++ (encode_timestamps ts).bits ++ (encode_values vs).bits) ++ List.replicate ((8 - (bytesToBits (build_inner_header ts.length (encode_timestamps ts).first_timestamp (encode_values vs).first_value_bits (encode_timestamps ts).first_delta (encode_timestamps ts).bits.length (encode_values vs).bits.length) ++ (encode_timestamps ts).bits ++ (encode_values vs).bits).length % 8) % 8) false)) = ((bytesToBits (build_inner_header ts.length (encode_timestamps ts).first_timestamp (encode_values vs).first_value_bits (encode_timestamps ts).first_delta (encode_timestamps ts).bits.length (encode_values vs).bits.length) ++ (encode_timestamps ts).bits ++ (encode_values vs).bits) ++ List.replicate ((8 - (bytesToBits (build_inner_header ts.length (encode_timestamps ts).first_timestamp (encode_values vs).first_value_bits (encode_timestamps ts).first_delta (encode_timestamps ts).bits.length (encode_values vs).bits.length) ++ (encode_timestamps ts).bits ++ (encode_values vs).bits).length % 8) % 8) false) :=
    bytesToBits_bitsToBytes _ hdvd
  have hpacked_slice : ((build_outer_header ts.length (bitsToBytes ((bytesToBits (build_inner_header ts.length (encode_timestamps ts).first_timestamp (encode_values vs).first_value_bits (encode_timestamps ts).first_delta (encode_timestamps ts).bits.length (encode_values vs).bits.length) ++ (encode_timestamps ts).bits ++ (encode_values vs).bits) ++ List.replicate ((8 - (bytesToBits (build_inner_header ts.length (encode_timestamps ts).first_timestamp (encode_values vs).first_value_bits (encode_timestamps ts).first_delta (encode_timestamps ts).bits.length (encode_values vs).bits.length) ++ (encode_timestamps ts).bits ++ (encode_values vs).bits).length % 8) % 8) false)).length (crc32 (bitsToBytes ((bytesToBits (build_inner_header ts.length (encode_timestamps ts).first_timestamp (encode_values vs).first_value_bits (encode_timestamps ts).first_delta (encode_timestamps ts).bits.length (encode_values vs).bits.length) ++ (encode_timestamps ts).bits ++ (encode_values vs).bits) ++ List.replicate ((8 - (bytesToBits (build_inner_header ts.length (encode_timestamps ts).first_timestamp (encode_values vs).first_value_bits (encode_timestamps ts).first_delta (encode_timestamps ts).bits.length (encode_values vs).bits.length) ++ (encode_timestamps ts).bits ++ (encode_values vs).bits).length % 8) % 8) false))) (encode_timestamps ts).first_timestamp (encode_timestamps ts).first_delta (encode_values vs).first_value_bits (encode_timestamps ts).bits.length (encode_values vs).bits.length (((bytesToBits (build_inner_header ts.length (encode_timestamps ts).first_timestamp (encode_values vs).first_value_bits (encode_timestamps ts).first_delta (encode_timestamps ts).bits.length (encode_values vs).bits.length) ++ (encode_timestamps ts).bits ++ (encode_values vs).bits) ++ List.replicate ((8 - (bytesToBits (build_inner_header ts.length (encode_timestamps ts).first_timestamp (encode_values vs).first_value_bits (encode_timestamps ts).first_delta (encode_timestamps ts).bits.length (encode_values vs).bits.length) ++ (encode_timestamps ts).bits ++ (encode_values vs).bits).length % 8) % 8) false)).length ratio_bits creation_time 0 0 false ++ bitsToBytes ((bytesToBits (build_inner_header ts.length (encode_timestamps ts).first_timestamp (encode_values vs).first_value_bits (encode_timestamps ts).first_delta (encode_timestamps ts).bits.length (encode_values vs).bits.length) ++ (encode_timestamps ts).bits ++ (encode_values vs).bits) ++ List.replicate ((8 - (bytesToBits (build_inner_header ts.length (encode_timestamps ts).first_timestamp (encode_values vs).first_value_bits (encode_timestamps ts).first_delta (encode_timestamps ts).bits.length (encode_values vs).bits.length) ++ (encode_timestamps ts).bits ++ (encode_values vs).bits).length % 8) % 8) false)).drop 80).take (bitsToBytes ((bytesToBits (build_inner_header ts.length (encode_timestamps ts).first_timestamp (encode_values vs).first_value_bits (encode_timestamps ts).first_delta (encode_timestamps ts).bits.length (encode_values vs).bits.length) ++ (encode_timestamps ts).bits ++ (encode_values vs).bits) ++ List.replicate ((8 - (bytesToBits (build_inner_header ts.length (encode_timestamps ts).first_timestamp (encode_values vs).first_value_bits (encode_timestamps ts).first_delta (encode_timestamps ts).bits.length (encode_values vs).bits.length) ++ (encode_timestamps ts).bits ++ (encode_values vs).bits).length % 8) % 8) false)).length
      = bitsToBytes ((bytesToBits (build_inner_header ts.length (encode_timestamps ts).first_timestamp (encode_values vs).first_value_bits (encode_timestamps ts).first_delta (encode_timestamps ts).bits.length (encode_values vs).bits.length) ++ (encode_timestamps ts).bits ++ (encode_values vs).bits) ++ List.replicate ((8 - (bytesToBits (build_inner_header ts.length (encode_timestamps ts).first_timestamp (encode_values vs).first_value_bits (encode_timestamps ts).first_delta (encode_timestamps ts).bits.length (encode_values vs).bits.length) ++ (encode_timestamps ts).bits ++ (encode_values vs).bits).length % 8) % 8) false) := by
    rw [List.drop_left' hlenO, List.take_length]
  have hfield24 : headerField (bitsToBytes ((bytesToBits (build_inner_header ts.length (encode_timestamps ts).first_timestamp (encode_values vs).first_value_bits (encode_timestamps ts).first_delta (encode_timestamps ts).bits.length (encode_values vs).bits.length) ++ (encode_timestamps ts).bits ++ (encode_values vs).bits) ++ List.replicate ((8 - (bytesToBits (build_inner_header ts.length (encode_timestamps ts).first_timestamp (encode_values vs).first_value_bits (encode_timestamps ts).first_delta (encode_timestamps ts).bits.length (encode_values vs).bits.length) ++ (encode_timestamps ts).bits ++ (encode_values vs).bits).length % 8) % 8) false)) 24 4 = ((encode_timestamps ts).bits).length := by
    rw [headerField_eq_bits, hpbits]
    simp only [List.append_assoc, hibits]
    unfold inner_bits
    simp only [List.append_assoc]
    simp [drop_toBits_append, take_toBits_append, bitsToNat_toBits,
      Nat.mod_eq_of_lt]
    omega
  have hdrop256 : (bytesToBits (bitsToBytes ((bytesToBits (build_inner_header ts.length (encode_timestamps ts).first_timestamp (encode_values vs).first_value_bits (encode_timestamps ts).first_delta (encode_timestamps ts).bits.length (encode_values vs).bits.length) ++ (encode_timestamps ts).bits ++ (encode_values vs).bits) ++ List.replicate ((8 - (bytesToBits (build_inner_header ts.length (encode_timestamps ts).first_timestamp (encode_values vs).first_value_bits (encode_timestamps ts).first_delta (encode_timestamps ts).bits.length (encode_values vs).bits.length) ++ (encode_timestamps ts).bits ++ (encode_values vs).bits).length % 8) % 8) false))).drop 256
      = (encode_timestamps ts).bits ++ ((encode_values vs).bits ++ List.replicate ((8 - ((bytesToBits (build_inner_header ts.length (encode_timestamps ts).first_timestamp (encode_values vs).first_value_bits (encode_timestamps ts).first_delta (encode_timestamps ts).bits.length (encode_values vs).bits.length) ++ (encode_timestamps ts).bits ++ (encode_values vs).bits)).length % 8) % 8) false) := by
    rw [hpbits]
    simp only [List.append_assoc, hibits]
    unfold inner_bits
    simp only [List.append_assoc]
    simp [drop_toBits_append]
  have hdropval : (bytesToBits (bitsToBytes ((bytesToBits (build_inner_header ts.length (encode_timestamps ts).first_timestamp (encode_values vs).first_value_bits (encode_timestamps ts).first_delta (encode_timestamps ts).bits.length (encode_values vs).bits.length) ++ (encode_timestamps ts).bits ++ (encode_values vs).bits) ++ List.replicate ((8 - (bytesToBits (build_inner_header ts.length (encode_timestamps ts).first_timestamp (encode_values vs).first_value_bits (encode_timestamps ts).first_delta (encode_timestamps ts).bits.length (encode_values vs).bits.length) ++ (encode_timestamps ts).bits ++ (encode_values vs).bits).length % 8) % 8) false))).drop (256 + ((encode_timestamps ts).bits).length)
      = (encode_values vs).bits ++ List.replicate ((8 - ((bytesToBits (build_inner_header ts.length (encode_timestamps ts).first_timestamp (encode_values vs).first_value_bits (encode_timestamps ts).first_delta (encode_timestamps ts).bits.length (encode_values vs).bits.length) ++ (encode_timestamps ts).bits ++ (encode_values vs).bits)).length % 8) % 8) false := by
    rw [← List.drop_drop, hdrop256, List.drop_left]
  have hdects : decode_timestamps ts.length
      ((encode_timestamps ts).bits ++ ((encode_values vs).bits ++ List.replicate ((8 - ((bytesToBits (build_inner_header ts.length (encode_timestamps ts).first_timestamp (encode_values vs).first_value_bits (encode_timestamps ts).first_delta (encode_timestamps ts).bits.length (encode_values vs).bits.length) ++ (encode_timestamps ts).bits ++ (encode_values vs).bits)).length % 8) % 8) false))
      = some (ts_decoded ts) := decode_encode_timestamps ts _
  have hdecvs : decode_values ts.length
      ((encode_values vs).bits ++ List.replicate ((8 - ((bytesToBits (build_inner_header ts.length (encode_timestamps ts).first_timestamp (encode_values vs).first_value_bits (encode_timestamps ts).first_delta (encode_timestamps ts).bits.length (encode_values vs).bits.length) ++ (encode_timestamps ts).bits ++ (encode_values vs).bits)).length % 8) % 8) false)
      = some vs := by
    rw [← hlen]
    exact decode_encode_values vs _ hv
  rw [hcore, gorilla_decode_of_parse _ _ hblen hparse,
    gorilla_decode_body_fields]
  rw [hpacked_slice]
  rw [if_neg hne0, if_neg (by omega)]
  rw [hfield24, hdrop256, hdropval, hdects, hdecvs]

/-- Success predicate on decode results (`{:ok, _}` versus a raised
error). -/
def except_ok {α : Type} : Except String α → Bool
  | .ok _ => true
  | .error _ => false

theorem length_setBytes (b c : List Nat) (off : Nat)
    (h : off + c.length ≤ b.length) :
    (setBytes b off c).length = b.length := by
  unfold setBytes
  simp only [List.length_append, List.length_take, List.length_drop]
  omega

theorem take_setBytes (b c : List Nat) (off k : Nat) (hk : k ≤ off)
    (h : off + c.length ≤ b.length) :
    (setBytes b off c).take k = b.take k := by
  unfold setBytes
  rw [List.take_append_of_le_length (by simp; omega),
    List.take_append_of_le_length (by simp; omega), List.take_take,
    Nat.min_eq_left hk]

theorem drop_setBytes (b c : List Nat) (off k : Nat)
    (hk : off + c.length ≤ k) (h : off + c.length ≤ b.length) :
    (setBytes b off c).drop k = b.drop k := by
  unfold setBytes
  rw [List.drop_append_eq_append_drop, List.drop_append_eq_append_drop]
  have h1 : (b.take off).length = off := by
    simp only [List.length_take]
    omega
  rw [h1, drop_len_le (b.take off) _ (by simp; omega),
    drop_len_le c _ (by omega)]
  simp only [List.nil_append, List.drop_drop]
  congr 1
  simp only [List.length_append, List.length_take]
  omega

theorem headerField_take (b : List Nat) (o l k : Nat) (h : o + l ≤ k) :
    headerField (b.take k) o l = headerField b o l := by
  unfold headerField
  rw [List.drop_take, List.take_take, Nat.min_eq_left (by omega)]

theorem headerField_setBytes_lo (b c : List Nat) (off o l : Nat)
    (ho : o + l ≤ off) (h : off + c.length ≤ b.length) :
    headerField (setBytes b off c) o l = headerField b o l := by
  rw [← headerField_take (setBytes b off c) o l off (by omega),
    take_setBytes b c off off (le_refl _) h,
    headerField_take b o l off (by omega)]

theorem headerField_setBytes_hi (b c : List Nat) (off o l : Nat)
    (ho : off + c.length ≤ o) (h : off + c.length ≤ b.length) :
    headerField (setBytes b off c) o l = headerField b o l := by
  unfold headerField
  rw [drop_setBytes b c off o ho h]

/-- The decoder never reads bytes 20..75 of the outer header (the
original-size, checksum, duplicated first-timestamp/first-delta/
first-value, bit-length, total-bits, compression-ratio and
creation-time fields): overwriting any sub-range of them leaves the
decode result unchanged. -/
theorem gorilla_decode_setBytes (b c : List Nat) (off : Nat)
    (h1 : 20 ≤ off) (h2 : off + c.length ≤ 76) (h3 : off + c.length ≤ b.length) :
    gorilla_decode (setBytes b off c) = gorilla_decode b := by
  have hlen : (setBytes b off c).length = b.length := length_setBytes b c off h3
  have hlo : ∀ o l, o + l ≤ 20 →
      headerField (setBytes b off c) o l = headerField b o l := fun o l ho =>
    headerField_setBytes_lo b c off o l (by omega) h3
  have hhi : ∀ o l, 76 ≤ o →
      headerField (setBytes b off c) o l = headerField b o l := fun o l ho =>
    headerField_setBytes_hi b c off o l (by omega) h3
  have hdrop : ∀ k, 76 ≤ k → (setBytes b off c).drop k = b.drop k := fun k hk =>
    drop_setBytes b c off k (by omega) h3
  have hparse : parse_outer_header (setBytes b off c) = parse_outer_header b := by
    unfold parse_outer_header
    rw [hlen, hlo 0 8 (by omega), hlo 8 2 (by omega), hlo 10 2 (by omega),
      hlo 12 4 (by omega), hlo 16 4 (by omega), hhi 76 4 (by omega),
      hhi 80 4 (by omega)]
  have hsizes : ∀ h : OuterHeader, parse_outer_header b = .ok h →
      h.header_size = 80 ∨ h.header_size = 84 := by
    intro h hp
    unfold parse_outer_header at hp
    split at hp
    · exact absurd hp (by simp)
    split at hp
    · exact absurd hp (by simp)
    split at hp
    · exact absurd hp (by simp)
    split at hp
    · exact absurd hp (by simp)
    split at hp
    · exact absurd hp (by simp)
    split at hp
    · exact absurd hp (by simp)
    rename_i hc2 _ _
    simp only [Except.ok.injEq] at hp
    rw [← hp]
    simpa using of_not_not hc2
  unfold gorilla_decode
  rw [hlen]
  cases hp : parse_outer_header b with
  | error e => rw [hparse, hp]
  | ok h =>
    rw [hparse, hp]
    have hs := hsizes h hp
    by_cases hb0 : b.length = 0
    · rw [if_pos hb0, if_pos hb0]
    · rw [if_neg hb0, if_neg hb0]
      show gorilla_decode_body (setBytes b off c) h = gorilla_decode_body b h
      unfold gorilla_decode_body
      rw [hdrop h.header_size (by omega)]

theorem gorilla_encode_eq (ratio_bits : Nat) (creation_time : Int)
    (samples : List (Int × Nat)) (opts : EncodeOpts) (hne : samples ≠ [])
    (hvm : opts.victoria_metrics = false) :
    gorilla_encode ratio_bits creation_time samples opts
      = some (gorilla_encode_core ratio_bits creation_time 0 0
          (encode_v2 false opts.is_counter 0)
          (samples.map Prod.fst) (samples.map Prod.snd)) := by
  cases samples with
  | nil => exact absurd rfl hne
  | cons a l =>
    unfold gorilla_encode
    rw [hvm]
    simp

theorem encode_v2_eq (vm ic : Bool) (sd : Nat) : encode_v2 vm ic sd = (vm || ic) := by
  unfold encode_v2
  simp

deriving instance DecidableEq for Except

theorem length_gorilla_encode_core_ge (ratio_bits : Nat) (creation_time : Int)
    (flags scale_decimals : Nat) (v2 : Bool) (ts : List Int) (vs : List Nat) :
    80 ≤ (gorilla_encode_core ratio_bits creation_time flags scale_decimals
        v2 ts vs).length := by
  simp only [gorilla_encode_core]
  rw [List.length_append, length_build_outer_header]
  cases v2 <;> simp <;> omega

theorem gorilla_encode_core_header_size (ratio_bits : Nat) (creation_time : Int)
    (flags scale_decimals : Nat) (v2 : Bool) (ts : List Int) (vs : List Nat) :
    headerField (gorilla_encode_core ratio_bits creation_time flags
        scale_decimals v2 ts vs) 10 2 = if v2 then 84 else 80 := by
  simp only [gorilla_encode_core]
  rw [headerField_build_outer]
  unfold outer_bits
  cases v2 <;>
    simp [drop_toBits_append, take_toBits_append, bitsToNat_toBits]

theorem encode_values_loop_const (v : Nat) (n : Nat) :
    encode_values_loop v 0 0 (List.replicate n v) = List.replicate n false := by
  induction n with
  | zero => rfl
  | succ n ih =>
    show encode_values_loop v 0 0 (v :: List.replicate n v) = _
    simp only [encode_values_loop]
    rw [if_pos (Nat.xor_self v), ih]
    rfl

/-- The value sub-stream with the window logic erased: every value
identical to its predecessor is a single `0` bit and every differing
value is `10` plus the full 64-bit XOR.  The C10 theorem below
proves the encoder's loop equal to this window-free form. -/
def simple_value_stream (prev : Nat) : List Nat → List Bool
  | [] => []
  | curr :: rest =>
    if curr ^^^ prev = 0 then
      false :: simple_value_stream curr rest
    else
      [true, false] ++ toBits 64 (curr ^^^ prev) ++ simple_value_stream curr rest

theorem encode_values_loop_simple (l : List Nat) (prev : Nat) :
    encode_values_loop prev 0 0 l = simple_value_stream prev l := by
  induction l generalizing prev with
  | nil => rfl
  | cons c rest ih =>
    simp only [encode_values_loop, simple_value_stream]
    by_cases hx : c ^^^ prev = 0
    · rw [if_pos hx, if_pos hx, ih]
    · rw [if_neg hx, if_neg hx,
        if_pos (⟨Nat.zero_le _, Nat.zero_le _, by norm_num⟩ :
          (0 : Nat) ≤ count_leading_zeros_64 (c ^^^ prev) ∧
          (0 : Nat) ≤ count_trailing_zeros_64 (c ^^^ prev) ∧ 0 < 64 - 0 - 0)]
      simp only [Nat.sub_zero, Nat.shiftRight_zero, toBits_mod, ih]

set_option maxRecDepth 8000 in
/-- C1: the spec claims `decode(encode(s))` returns exactly `s` for
every finite sample list under default options.  The code violates
this: for samples `[(0, v), (64, v)]` the first delta 64 falls in the
7-bit bucket (`-63 ≤ d ≤ 64`), but 64 is not representable in 7-bit
two's complement — the encoder emits the raw payload `1000000` and the
decoder sign-extends it to -64, returning `[(0, v), (-64, v)]`.  This
theorem evaluates the encoder and the decoder of this file at that
input (`v` = the bit pattern of 1.0; the compression-ratio and
creation-time header parameters are 0 — the decoder ignores both). -/
theorem claim_C1_roundtrip_code_bug :
    gorilla_encode 0 0
        [((0 : Int), 0x3FF0000000000000), ((64 : Int), 0x3FF0000000000000)] {}
      = some (gorilla_encode_core 0 0 0 0 false [0, 64]
          [0x3FF0000000000000, 0x3FF0000000000000]) ∧
    gorilla_decode (gorilla_encode_core 0 0 0 0 false [0, 64]
        [0x3FF0000000000000, 0x3FF0000000000000])
      = .ok ⟨[((0 : Int), 0x3FF0000000000000),
          ((-64 : Int), 0x3FF0000000000000)], 0, 0⟩ ∧
    [((0 : Int), (0x3FF0000000000000 : Nat)), ((-64 : Int), 0x3FF0000000000000)]
      ≠ [((0 : Int), (0x3FF0000000000000 : Nat)), ((64 : Int), 0x3FF0000000000000)] :=
  ⟨rfl, by decide, by decide⟩

/-- Modelled from the spec: the variable-length bucket table of §4.3
worded exactly as the claim states it (prefix `0` for zero, `10` with
a 7-bit payload for `-63 ≤ d ≤ 64`, `110`/9 for `-255 ≤ d ≤ 256`,
`1110`/12 for `-2047 ≤ d ≤ 2048`, `1111`/32 otherwise). -/
def spec_delta_bucket (d : Int) : List Bool :=
  if d = 0 then [false]
  else if -63 ≤ d ∧ d ≤ 64 then [true, false] ++ toBits 7 (toU64 d)
  else if -255 ≤ d ∧ d ≤ 256 then [true, true, false] ++ toBits 9 (toU64 d)
  else if -2047 ≤ d ∧ d ≤ 2048 then [true, true, true, false] ++ toBits 12 (toU64 d)
  else [true, true, true, true] ++ toBits 32 (toU64 d)

/-- C2: both the first-delta and the delta-of-delta encoders select
buckets exactly by the spec's threshold table; in particular a delta
of 64 uses the 7-bit bucket and a delta of 65 the 9-bit bucket. -/
theorem claim_C2_bucket_thresholds :
    (∀ d : Int, encode_first_delta d = spec_delta_bucket d ∧
        encode_delta_of_delta d = spec_delta_bucket d) ∧
    encode_first_delta 64 = [true, false] ++ toBits 7 64 ∧
    encode_first_delta 65 = [true, true, false] ++ toBits 9 65 ∧
    encode_delta_of_delta 64 = [true, false] ++ toBits 7 64 ∧
    encode_delta_of_delta 65 = [true, true, false] ++ toBits 9 65 :=
  ⟨fun d => ⟨rfl, rfl⟩, by decide, by decide, by decide, by decide⟩

/-- C3: overwriting the outer header's CRC-32 field (bytes 24-27) of a
valid encoded buffer changes nothing: decode returns exactly what it
returns for the uncorrupted buffer, and that decode succeeds.  (The
source computes the checksum and compares it against the stored one,
but the mismatch branch is empty.) -/
theorem claim_C3_checksum_advisory (ratio_bits : Nat) (creation_time : Int)
    (samples : List (Int × Nat)) (c : List Nat)
    (hne : samples ≠ []) (hcnt : samples.length < 2 ^ 26)
    (hv : ∀ p ∈ samples, p.2 < 2 ^ 64) (hc : c.length = 4) :
    ∃ b, gorilla_encode ratio_bits creation_time samples {} = some b ∧
      gorilla_decode (setBytes b 24 c) = gorilla_decode b ∧
      except_ok (gorilla_decode b) = true := by
  have hb : gorilla_encode ratio_bits creation_time samples {}
      = some (gorilla_encode_core ratio_bits creation_time 0 0 false
          (samples.map Prod.fst) (samples.map Prod.snd)) := by
    rw [gorilla_encode_eq ratio_bits creation_time samples {} hne rfl]
    rfl
  have hdec : gorilla_decode (gorilla_encode_core ratio_bits creation_time 0 0
      false (samples.map Prod.fst) (samples.map Prod.snd))
      = .ok ⟨(ts_decoded (samples.map Prod.fst)).zip (samples.map Prod.snd),
          0, 0⟩ := by
    apply gorilla_decode_encode
    · intro h
      exact hne (by simpa using congrArg List.length h)
    · simp
    · simpa using hcnt
    · intro w hw
      simp only [List.mem_map] at hw
      obtain ⟨p, hp, rfl⟩ := hw
      exact hv p hp
  refine ⟨gorilla_encode_core ratio_bits creation_time 0 0 false
      (samples.map Prod.fst) (samples.map Prod.snd), hb, ?_, ?_⟩
  · apply gorilla_decode_setBytes
    · omega
    · omega
    · have := length_gorilla_encode_core_ge ratio_bits creation_time 0 0 false
        (samples.map Prod.fst) (samples.map Prod.snd)
      omega
  · rw [hdec]
    rfl

/-- C4: on a nonempty buffer, the outer-header validation of decode
fails in exactly the claimed cases (length below 80, wrong magic,
version above 1, header size other than 80/84, buffer shorter than the
declared header size, declared compressed size past the buffer end),
and a validation failure makes the whole decode fail with no sample
list.  (Payload-level failures — a packed block below 32 bytes, or a
bit reader running past the end — are separate stream errors, not part
of this outer-header validation.) -/
theorem claim_C4_structural_validation (b : List Nat) (hb : b ≠ []) :
    ((except_ok (parse_outer_header b) = false) ↔
      (b.length < 80 ∨ headerField b 0 8 ≠ GORILLA_MAGIC ∨
        1 < headerField b 8 2 ∨
        (headerField b 10 2 ≠ 80 ∧ headerField b 10 2 ≠ 84) ∨
        b.length < headerField b 10 2 ∨
        b.length < headerField b 10 2 + headerField b 16 4)) ∧
    (except_ok (parse_outer_header b) = false →
      except_ok (gorilla_decode b) = false) := by
  constructor
  · unfold parse_outer_header
    split_ifs with h1 h2 h3 h4 h5 h6 <;> simp [except_ok] <;> omega
  · intro hfail
    unfold gorilla_decode
    rw [if_neg (fun h => hb (List.length_eq_zero.mp h))]
    cases hp : parse_outer_header b with
    | error e => rfl
    | ok hOut =>
      rw [hp] at hfail
      simp [except_ok] at hfail

/-- C5: encoding the empty sample list yields the empty buffer under
any options (before option handling, so also with VM options set), and
decoding the empty buffer yields the empty sample list. -/
theorem claim_C5_empty (ratio_bits : Nat) (creation_time : Int)
    (opts : EncodeOpts) :
    gorilla_encode ratio_bits creation_time [] opts = some [] ∧
    gorilla_decode [] = .ok ⟨[], 0, 0⟩ :=
  ⟨rfl, rfl⟩

/-- C6: when all values share one 64-bit pattern `v`, the value
sub-stream is the 64 bits of `v` followed by exactly one `0` bit per
non-first sample, and decoding the encoded buffer returns values
bit-identical to the input (the second components of the result are
exactly `List.replicate ts.length v`; only timestamps pass through
`ts_decoded`). -/
theorem claim_C6_identical_values (ratio_bits : Nat) (creation_time : Int)
    (ts : List Int) (v : Nat) (hne : ts ≠ []) (hcnt : ts.length < 2 ^ 26)
    (hv : v < 2 ^ 64) :
    (encode_values (List.replicate ts.length v)).bits
      = toBits 64 v ++ List.replicate (ts.length - 1) false ∧
    gorilla_decode (gorilla_encode_core ratio_bits creation_time 0 0 false ts
        (List.replicate ts.length v))
      = .ok ⟨(ts_decoded ts).zip (List.replicate ts.length v), 0, 0⟩ := by
  constructor
  · obtain ⟨t, rest, rfl⟩ : ∃ t rest, ts = t :: rest := by
      cases ts with
      | nil => exact absurd rfl hne
      | cons t r => exact ⟨t, r, rfl⟩
    show (encode_values (List.replicate (rest.length + 1) v)).bits = _
    rw [List.replicate_succ]
    simp only [encode_values]
    rw [encode_values_loop_const]
    simp
  · apply gorilla_decode_encode
    · exact hne
    · simp
    · exact hcnt
    · intro w hw
      rw [List.eq_of_mem_replicate hw]
      exact hv

/-- C7 counterexample: the spec ties the 84-byte outer header to a
supplied explicit `scale_decimals` when `is_counter` is set, and says
`is_counter` alone (with `victoria_metrics` false and `scale_decimals`
absent) keeps the 80-byte header.  The encoder disagrees: with
`victoria_metrics = false`, `is_counter = true` and no scale option it
still writes header size 84. -/
theorem claim_C7_counterexample :
    (∃ b, gorilla_encode 0 0 [((0 : Int), (1 : Nat))]
        ⟨false, true, none⟩ = some b ∧ headerField b 10 2 = 84) := by
  refine ⟨gorilla_encode_core 0 0 0 0 true [0] [1], rfl, ?_⟩
  rw [gorilla_encode_core_header_size]
  rfl

/-- C7 (amended): `v2 = vm_enabled || (is_counter && scale_decimals >= 0)`
compares an unsigned `uint32_t` to 0, so the second conjunct reduces to
`is_counter` — the encoder emits the 84-byte header exactly when
`victoria_metrics` or `is_counter` is set, regardless of `scale_decimals`.
For every nonempty non-VM encode the header-size field at bytes 10-11 is
84 when `is_counter` is set and 80 otherwise. -/
theorem claim_C7_header_size (ratio_bits : Nat) (creation_time : Int)
    (samples : List (Int × Nat)) (opts : EncodeOpts)
    (hne : samples ≠ []) (hvm : opts.victoria_metrics = false) :
    (∀ vm ic : Bool, ∀ sd : Nat, encode_v2 vm ic sd = (vm || ic)) ∧
    ∃ b, gorilla_encode ratio_bits creation_time samples opts = some b ∧
      headerField b 10 2 = if opts.is_counter then 84 else 80 := by
  refine ⟨fun vm ic sd => encode_v2_eq vm ic sd, ?_⟩
  refine ⟨_, gorilla_encode_eq ratio_bits creation_time samples opts hne hvm, ?_⟩
  rw [gorilla_encode_core_header_size, encode_v2_eq]
  simp

theorem claim_C7_witness :
    ([((0 : Int), (1 : Nat))] ≠ [] ∧
      EncodeOpts.victoria_metrics ⟨false, true, none⟩ = false) ∧
    ((∀ vm ic : Bool, ∀ sd : Nat, encode_v2 vm ic sd = (vm || ic)) ∧
      ∃ b, gorilla_encode 0 0 [((0 : Int), (1 : Nat))] ⟨false, true, none⟩
          = some b ∧
        headerField b 10 2
          = if EncodeOpts.is_counter ⟨false, true, none⟩ then 84 else 80) :=
  ⟨⟨List.cons_ne_nil _ _, rfl⟩,
    claim_C7_header_size 0 0 [((0 : Int), (1 : Nat))] ⟨false, true, none⟩
      (List.cons_ne_nil _ _) rfl⟩

/-- C8: from any writer state with fewer than 8 pending bits, the total
bit count is 8 times the committed bytes plus the pending count; a
`write` of `n` bits leaves fewer than 8 pending bits, advances the
total by exactly `n` and appends exactly the `n`-bit big-endian form of
the value to the held bit sequence; a `flush` leaves fewer than 8
pending bits and changes neither the total nor the held bits. -/
theorem claim_C8_bitwriter_invariant (w : BitWriter) (v n : Nat)
    (h : w.bits < 8) :
    w.totalBits = 8 * w.out.length + w.bits ∧
    (w.write v n).bits < 8 ∧
    (w.write v n).totalBits = w.totalBits + n ∧
    (w.write v n).bitsOf = w.bitsOf ++ toBits n v ∧
    w.flush.bits < 8 ∧
    w.flush.totalBits = w.totalBits ∧
    w.flush.bitsOf = w.bitsOf := by
  have hp := BitWriter.write_props w v n h
  exact ⟨by unfold BitWriter.totalBits; ring, hp.2.1, hp.2.2, hp.1,
    BitWriter.flush_bits_lt w, BitWriter.flush_totalBits w,
    BitWriter.flush_bitsOf w⟩

theorem claim_C8_witness :
    ((BitWriter.mk [] 0 0).bits < 8) ∧
    ((BitWriter.mk [] 0 0).totalBits
        = 8 * (BitWriter.mk [] 0 0).out.length + (BitWriter.mk [] 0 0).bits ∧
      ((BitWriter.mk [] 0 0).write 5 4).bits < 8 ∧
      ((BitWriter.mk [] 0 0).write 5 4).totalBits
        = (BitWriter.mk [] 0 0).totalBits + 4 ∧
      ((BitWriter.mk [] 0 0).write 5 4).bitsOf
        = (BitWriter.mk [] 0 0).bitsOf ++ toBits 4 5 ∧
      (BitWriter.mk [] 0 0).flush.bits < 8 ∧
      (BitWriter.mk [] 0 0).flush.totalBits = (BitWriter.mk [] 0 0).totalBits ∧
      (BitWriter.mk [] 0 0).flush.bitsOf = (BitWriter.mk [] 0 0).bitsOf) :=
  ⟨by decide, claim_C8_bitwriter_invariant ⟨[], 0, 0⟩ 5 4 (by decide)⟩

set_option maxRecDepth 10000 in
/-- C9 counterexample: encode `[(5, 1.0), (6, 1.0)]`, then overwrite
the outer header's duplicated first-timestamp field (bytes 28-35) with
0xFF bytes.  The outer copy (2^64 - 1) now disagrees with the inner
copy at bytes 84-91 (still 5), yet decode accepts the buffer and
returns the original samples. -/
theorem claim_C9_counterexample :
    headerField (setBytes (gorilla_encode_core 0 0 0 0 false [5, 6]
        [0x3FF0000000000000, 0x3FF0000000000000]) 28 (List.replicate 8 255)) 28 8
      ≠ headerField (setBytes (gorilla_encode_core 0 0 0 0 false [5, 6]
        [0x3FF0000000000000, 0x3FF0000000000000]) 28 (List.replicate 8 255)) 84 8 ∧
    gorilla_decode (setBytes (gorilla_encode_core 0 0 0 0 false [5, 6]
        [0x3FF0000000000000, 0x3FF0000000000000]) 28 (List.replicate 8 255))
      = .ok ⟨[((5 : Int), 0x3FF0000000000000), ((6 : Int), 0x3FF0000000000000)],
          0, 0⟩ := by
  constructor <;> decide

/-- C9 (amended): the decoder reads and discards the duplicated
first-sample fields of the outer header — first_timestamp (bytes
28-35), first_delta (36-39) and first_value_bits (40-47) — and never
compares them with the inner-header copies.  Overwriting any part of
that 20-byte region with arbitrary bytes changes nothing: the decode
result is identical to the unmodified buffer's, so a buffer whose
copies disagree is accepted exactly as the original is. -/
theorem claim_C9_no_agreement_check (b c : List Nat)
    (hc : c.length ≤ 20) (hb : 28 + c.length ≤ b.length) :
    gorilla_decode (setBytes b 28 c) = gorilla_decode b :=
  gorilla_decode_setBytes b c 28 (by omega) (by omega) (by omega)

theorem claim_C9_witness :
    ((List.replicate 20 (7 : Nat)).length ≤ 20 ∧
      28 + (List.replicate 20 (7 : Nat)).length
        ≤ (List.replicate 48 (0 : Nat)).length) ∧
    gorilla_decode (setBytes (List.replicate 48 (0 : Nat)) 28
        (List.replicate 20 7))
      = gorilla_decode (List.replicate 48 (0 : Nat)) :=
  ⟨⟨by simp, by simp⟩, claim_C9_no_agreement_check _ _ (by simp) (by simp)⟩

/-- C10: the value encoder's remembered XOR window never leaves
(leading = 0, trailing = 0): the initial window satisfies the reuse
condition for every nonzero XOR (0 ≤ leading, 0 ≤ trailing and
0 < 64 - 0 - 0), so the new-window branch is never taken, and the loop
equals the window-free `simple_value_stream` — one `0` bit per repeated
value, and `10` plus the full 64-bit XOR for every differing value.
Consequently the whole value sub-stream is the first value's 64 bits
followed by that window-free stream. -/
theorem claim_C10_window_constant (v0 : Nat) (vs : List Nat) :
    encode_values_loop v0 0 0 vs = simple_value_stream v0 vs ∧
    (encode_values (v0 :: vs)).bits = toBits 64 v0 ++ simple_value_stream v0 vs := by
  refine ⟨encode_values_loop_simple vs v0, ?_⟩
  show toBits 64 v0 ++ encode_values_loop v0 0 0 vs = _
  rw [encode_values_loop_simple]

theorem claim_C3_witness :
    ([((0 : Int), (1 : Nat))] ≠ [] ∧ [((0 : Int), (1 : Nat))].length < 2 ^ 26 ∧
      (∀ p ∈ [((0 : Int), (1 : Nat))], p.2 < 2 ^ 64) ∧
      [(9 : Nat), 9, 9, 9].length = 4) ∧
    (∃ b, gorilla_encode 0 0 [((0 : Int), (1 : Nat))] {} = some b ∧
      gorilla_decode (setBytes b 24 [9, 9, 9, 9]) = gorilla_decode b ∧
      except_ok (gorilla_decode b) = true) :=
  ⟨⟨List.cons_ne_nil _ _, by decide, by decide, rfl⟩,
    claim_C3_checksum_advisory 0 0 [((0 : Int), (1 : Nat))] [9, 9, 9, 9]
      (List.cons_ne_nil _ _) (by decide) (by decide) rfl⟩

theorem claim_C4_witness :
    ([(0 : Nat)] ≠ []) ∧
    (((except_ok (parse_outer_header [(0 : Nat)]) = false) ↔
      ([(0 : Nat)].length < 80 ∨
        headerField [(0 : Nat)] 0 8 ≠ GORILLA_MAGIC ∨
        1 < headerField [(0 : Nat)] 8 2 ∨
        (headerField [(0 : Nat)] 10 2 ≠ 80 ∧ headerField [(0 : Nat)] 10 2 ≠ 84) ∨
        [(0 : Nat)].length < headerField [(0 : Nat)] 10 2 ∨
        [(0 : Nat)].length
          < headerField [(0 : Nat)] 10 2 + headerField [(0 : Nat)] 16 4)) ∧
    (except_ok (parse_outer_header [(0 : Nat)]) = false →
      except_ok (gorilla_decode [(0 : Nat)]) = false)) :=
  ⟨List.cons_ne_nil _ _, claim_C4_structural_validation [0] (List.cons_ne_nil _ _)⟩

theorem claim_C6_witness :
    ([(5 : Int)] ≠ [] ∧ [(5 : Int)].length < 2 ^ 26 ∧ (3 : Nat) < 2 ^ 64) ∧
    ((encode_values (List.replicate [(5 : Int)].length 3)).bits
        = toBits 64 3 ++ List.replicate ([(5 : Int)].length - 1) false ∧
      gorilla_decode (gorilla_encode_core 0 0 0 0 false [(5 : Int)]
          (List.replicate [(5 : Int)].length 3))
        = .ok ⟨(ts_decoded [(5 : Int)]).zip
            (List.replicate [(5 : Int)].length 3), 0, 0⟩) :=
  ⟨⟨List.cons_ne_nil _ _, by decide, by decide⟩,
    claim_C6_identical_values 0 0 [(5 : Int)] 3 (List.cons_ne_nil _ _)
      (by decide) (by decide)⟩

end GorillaNif
